import Mathlib

/-!
Verification of the CaRMS residency-data pipeline against its specification.

The Python pipeline (Dagster assets in `src/dagster_project/assets/staging.py`
and `serving.py`) is shallowly embedded below: pandas DataFrames become lists
of records, SQLModel tables become lists of records held in an explicit
database state, and each asset's materialization function becomes a pure Lean
function over those lists.  Python strings are embedded as `List Char`
(`Str`), and Python string primitives (`in`, `find`, `split`, `strip`,
`lower`, slicing) are given faithful executable counterparts.
-/

/-- Python strings are embedded as lists of characters. -/
abbrev Str := List Char

/-- Python `s.lower()` (ASCII case folding, which is all the pipeline uses). -/
def lowerStr (s : Str) : Str := s.map Char.toLower

/-- Python `s.upper()` (ASCII case folding). -/
def upperStr (s : Str) : Str := s.map Char.toUpper

/-- Python `s.strip()`: remove leading and trailing whitespace. -/
def trim (s : Str) : Str :=
  ((s.dropWhile Char.isWhitespace).reverse.dropWhile Char.isWhitespace).reverse

/-- Boolean prefix test on character lists. -/
def isPrefixB : Str → Str → Bool
  | [], _ => true
  | _ :: _, [] => false
  | a :: as, b :: bs => a == b && isPrefixB as bs

/-- Python `needle in hay`: case-sensitive substring containment. -/
def pyIn (needle : Str) : Str → Bool
  | [] => isPrefixB needle []
  | c :: rest => isPrefixB needle (c :: rest) || pyIn needle rest

/-- Python `hay.find(needle)` starting from index `i`: index of the leftmost
occurrence, or `none`. -/
def strFindFrom (needle : Str) : Str → Nat → Option Nat
  | [], i => if isPrefixB needle [] then some i else none
  | c :: rest, i =>
    if isPrefixB needle (c :: rest) then some i else strFindFrom needle rest (i + 1)

/-- Python `hay.find(needle)` (as an `Option`; the code only calls it when the
needle is known to occur). -/
def strFind (hay needle : Str) : Option Nat := strFindFrom needle hay 0

/-- Python `s.split(sep)` for a single-character separator: keeps empty
fields, always returns at least one field. -/
def splitOnChar (sep : Char) : Str → List Str
  | [] => [[]]
  | c :: rest =>
    match splitOnChar sep rest with
    | [] => [[]]
    | s :: ss => if c == sep then [] :: s :: ss else (c :: s) :: ss

/-- Helper for `words`: accumulates the current word (reversed). -/
def wordsAux : Str → Str → List Str
  | [], acc => if acc.isEmpty then [] else [acc.reverse]
  | c :: rest, acc =>
    if c.isWhitespace then
      if acc.isEmpty then wordsAux rest [] else acc.reverse :: wordsAux rest []
    else wordsAux rest (c :: acc)

/-- Python `s.split()` with no argument: split on whitespace runs, dropping
empty fields. -/
def words (s : Str) : List Str := wordsAux s []

/-- Python `d[k] = v` on an insertion-ordered dict rendered as an association
list: overwrite the value at the first occurrence of the key, else append. -/
def dictSet {β : Type} (d : List (Str × β)) (k : Str) (v : β) : List (Str × β) :=
  match d with
  | [] => [(k, v)]
  | (k0, v0) :: rest =>
    if k0 == k then (k0, v) :: rest else (k0, v0) :: dictSet rest k v

/-- Python `d.get(k)` on the same rendering of a dict. -/
def dictGet {β : Type} (d : List (Str × β)) (k : Str) : Option β :=
  (d.find? (fun p => p.1 == k)).map (·.2)

/-! ## Entity Normalizer (staging.py)

`generate_code` (staging.py lines 126-135), `generate_specialty_code`
(lines 171-178), `categorize_specialty` (lines 187-208), and the
subspecialty fields (lines 213-218). -/

/-- `staging.py generate_code`: initials (at most 4, upper-cased) for a
multi-word university name, else the 4-character upper-cased prefix, with
`"UNK"` for an empty word list. -/
def generateCode (name : Str) : Str :=
  let ws := words name
  if ws.length > 0 then
    if ws.length ≥ 2 then
      upperStr (((ws.filter (fun w => w.length > 0)).map (fun w => w.headD ' ')).take 4)
    else upperStr (name.take 4)
  else "UNK".data

/-- The first field of Python `re.split(r'\s*-\s*', name)`: everything before
the first hyphen, with the whitespace run immediately preceding that hyphen
removed; the whole string when there is no hyphen. -/
def stripClause (name : Str) : Str :=
  if name.contains '-' then
    (name.takeWhile (fun c => c != '-')).reverse.dropWhile Char.isWhitespace |>.reverse
  else name

/-- `staging.py generate_specialty_code`: strip the hyphen clause, then
initials truncated to 3 for a multi-word name, else the 3-character prefix,
upper-cased. -/
def generateSpecialtyCode (name : Str) : Str :=
  let cleanName := stripClause name
  let ws := words cleanName
  if ws.length > 1 then upperStr ((ws.map (fun w => w.headD ' ')).take 3)
  else upperStr (cleanName.take 3)

/-- Keyword lists of `staging_specialties` (staging.py lines 183-185). -/
def surgicalKeywords : List Str := ["surgery".data, "surgical".data]

def medicalKeywords : List Str := ["medicine".data, "medical".data]

def primaryCareKeywords : List Str :=
  ["family medicine".data, "family".data, "general practice".data]

/-- `staging.py categorize_specialty`: ordered, case-insensitive keyword
checks; the first matching check decides the category. -/
def categorizeSpecialty (name : Str) : Str :=
  let nameLower := lowerStr name
  if primaryCareKeywords.any (fun kw => pyIn kw nameLower) then "Primary Care".data
  else if surgicalKeywords.any (fun kw => pyIn kw nameLower) then "Surgical".data
  else if medicalKeywords.any (fun kw => pyIn kw nameLower) then "Medical".data
  else if pyIn "psychiatry".data nameLower then "Psychiatry".data
  else if pyIn "pediatric".data nameLower || pyIn "paediatric".data nameLower then
    "Pediatrics".data
  else if pyIn "obstetric".data nameLower || pyIn "gynecol".data nameLower then
    "Obstetrics & Gynecology".data
  else if pyIn "diagnostic".data nameLower || pyIn "radiology".data nameLower then
    "Diagnostic".data
  else if pyIn "pathology".data nameLower then "Laboratory".data
  else "Other".data

/-- `staging_specialties`: a specialty is a subspecialty when its name
contains the literal `" - "`. -/
def isSubspecialty (name : Str) : Bool := pyIn " - ".data name

/-- `staging_specialties`: parent specialty name — the text before the hyphen
separator — defined only for subspecialties. -/
def parentSpecialtyName (name : Str) : Option Str :=
  if pyIn " - ".data name then some (stripClause name) else none

/-- One row of the `staging_specialties` output (staging.py lines 155-225). -/
structure SRow where
  specialty_name : Str
  code : Str
  category : Str
  is_subspecialty : Bool
  parent_specialty_name : Option Str
  is_primary_care : Bool
deriving DecidableEq

/-- `staging_specialties` applied to one raw discipline name. -/
def stagingSpecialtyRow (name : Str) : SRow :=
  { specialty_name := name
    code := generateSpecialtyCode name
    category := categorizeSpecialty name
    is_subspecialty := isSubspecialty name
    parent_specialty_name := parentSpecialtyName name
    is_primary_care := categorizeSpecialty name == "Primary Care".data }

/-! ## staging_programs (staging.py lines 18-66) -/

/-- A raw program-master row after the column renames; `fillna('')` is
reflected by total string fields. -/
structure RawProgramRow where
  program_code : Str
  program_name : Str
  program_stream : Str
  program_site : Str
  specialty_name : Str
  university_name : Str
deriving DecidableEq

/-- One row of the `staging_programs` output. -/
structure ProgRow where
  program_code : Str
  program_name : Str
  program_stream : Str
  program_site : Str
  specialty_name : Str
  university_name : Str
  carms_year : Nat
  source_file : Str
  is_valid : Bool
deriving DecidableEq

/-- `staging_programs` on one row: strip the program code, set the metadata
columns, and flag the row invalid when the stripped code is shorter than 3
characters or the university name is empty. -/
def stagingProgramRow (r : RawProgramRow) : ProgRow :=
  let code := trim r.program_code
  { program_code := code
    program_name := r.program_name
    program_stream := r.program_stream
    program_site := r.program_site
    specialty_name := r.specialty_name
    university_name := r.university_name
    carms_year := 2025
    source_file := "1503_program_master.xlsx".data
    is_valid := !(decide (code.length < 3)) && !r.university_name.isEmpty }

/-- `staging_programs` over a whole frame. -/
def stagingPrograms (rows : List RawProgramRow) : List ProgRow :=
  rows.map stagingProgramRow

/-! ## Text Section Parser (staging.py lines 256-276)

The markdown-section loop inside `staging_program_descriptions`. -/

/-- The parsing loop: `line.startswith('#')` opens a new section titled
`line.lstrip('#').strip()`; other lines accumulate into the current section;
a section is saved (dict assignment, last-wins) when the next heading or the
end of input is reached.  With no current section, accumulated lines are
discarded at the end. -/
def parseSectionsLoop :
    List Str → Option Str → List Str → List (Str × Str) → List (Str × Str)
  | [], currentSection, currentContent, sections =>
    match currentSection with
    | some t => dictSet sections t (trim (List.intercalate "\n".data currentContent))
    | none => sections
  | line :: rest, currentSection, currentContent, sections =>
    if isPrefixB "#".data line then
      let saved :=
        match currentSection with
        | some t => dictSet sections t (trim (List.intercalate "\n".data currentContent))
        | none => sections
      parseSectionsLoop rest (some (trim (line.dropWhile (fun c => c == '#')))) [] saved
    else parseSectionsLoop rest currentSection (currentContent ++ [line]) sections

/-- Parse a document into its ordered title-to-body section mapping. -/
def parseSections (content : Str) : List (Str × Str) :=
  parseSectionsLoop (splitOnChar '\n' content) none [] []

/-- A raw JSON document: id, page content, and source metadata. -/
structure RawDoc where
  id : Str
  page_content : Str
  source : Str
deriving DecidableEq

/-- One row of the `staging_program_descriptions` output. -/
structure DescRow where
  carms_id : Str
  source_url : Str
  full_content : Str
  program_overview : Str
  curriculum : Str
  selection_criteria : Str
  application_process : Str
  contact_info : Str
  content_sections : List Str
  total_length : Nat
deriving DecidableEq

/-- `staging_program_descriptions` on one document: derive the CaRMS id from
the pipe-separated id, parse sections, and pull the named sections out. -/
def mkDescription (item : RawDoc) : DescRow :=
  let carmsId :=
    if item.id.contains '|' then (splitOnChar '|' item.id).getLastD [] else item.id
  let sections := parseSections item.page_content
  { carms_id := carmsId
    source_url := item.source
    full_content := item.page_content
    program_overview := (dictGet sections "Program Overview".data).getD []
    curriculum :=
      (dictGet sections "Curriculum".data).getD
        ((dictGet sections "Curriculum Highlights".data).getD [])
    selection_criteria := (dictGet sections "Selection Criteria".data).getD []
    application_process := (dictGet sections "Application Process".data).getD []
    contact_info := (dictGet sections "Contact Information".data).getD []
    content_sections := sections.map (·.1)
    total_length := item.page_content.length }

/-- `staging_program_descriptions` over the whole document collection. -/
def stagingProgramDescriptions (raws : List RawDoc) : List DescRow :=
  raws.map mkDescription

/-! ## Field Extractor: requirements (staging.py lines 304-346)

Each requirement pattern has the shape
`(?i)KEYWORD[:\s]+(.*?)(?=\n\n|\n#|$)` with `re.DOTALL` (two of them with an
optional plural `s` after the keyword).  Since the lookahead always succeeds
by the end of the string, the greedy `[:\s]+` always keeps its maximal run
and the lazy group stops at the first position where the lookahead holds, so
the match is deterministic and is embedded directly. -/

/-- Case-insensitive literal prefix stripping (the `(?i)` keyword part). -/
def stripPrefixCI : Str → Str → Option Str
  | [], s => some s
  | _ :: _, [] => none
  | k :: ks, c :: cs => if k.toLower == c.toLower then stripPrefixCI ks cs else none

/-- Membership in the character class `[:\s]`. -/
def isClassChar (c : Char) : Bool := c == ':' || c.isWhitespace

/-- The lookahead `(?=\n\n|\n#|$)` (no MULTILINE: `$` matches at the end of
input or just before a final newline). -/
def lookaheadOk : Str → Bool
  | [] => true
  | ['\n'] => true
  | '\n' :: '\n' :: _ => true
  | '\n' :: '#' :: _ => true
  | _ => false

/-- The lazy group `(.*?)`: the shortest prefix after which the lookahead
holds, together with the remaining input. -/
def lazyGroup : Str → Str × Str
  | [] => ([], [])
  | c :: t =>
    if lookaheadOk (c :: t) then ([], c :: t)
    else
      let p := lazyGroup t
      (c :: p.1, p.2)

/-- Try to match one requirement pattern at the head of `s`; on success
return the captured group and the input remaining after the match. -/
def matchReq (kw : Str) (optS : Bool) (s : Str) : Option (Str × Str) :=
  match stripPrefixCI kw s with
  | none => none
  | some s1 =>
    let s2 :=
      if optS then
        match s1 with
        | 's' :: t => t
        | 'S' :: t => t
        | _ => s1
      else s1
    if (s2.takeWhile isClassChar).isEmpty then none
    else some (lazyGroup (s2.dropWhile isClassChar))

/-- `re.findall` for one requirement pattern: scan left to right, resume
after each match.  Fuel is the input length; every step either drops one
character or consumes a (never-empty) match. -/
def findallReqAux (kw : Str) (optS : Bool) : Nat → Str → List Str
  | 0, _ => []
  | _ + 1, [] => []
  | fuel + 1, c :: t =>
    match matchReq kw optS (c :: t) with
    | some p => p.1 :: findallReqAux kw optS fuel p.2
    | none => findallReqAux kw optS fuel t

/-- All matches of one requirement pattern in a document. -/
def findallReq (kw : Str) (optS : Bool) (s : Str) : List Str :=
  findallReqAux kw optS s.length s

/-- The ordered requirement pattern table (type, keyword, optional plural). -/
def requirementPatterns : List (Str × Str × Bool) :=
  [("Eligibility".data, "eligibility".data, false),
   ("Prerequisites".data, "prerequisite".data, true),
   ("Language".data, "language requirement".data, true),
   ("Citizenship".data, "citizenship".data, false),
   ("Visa".data, "visa".data, false)]

/-- One row of the `staging_requirements` output. -/
structure ReqRow where
  carms_id : Str
  requirement_type : Str
  requirement_text : Str
  is_mandatory : Bool
deriving DecidableEq

/-- `staging_requirements` on one document: every match of every pattern
becomes its own record, stripped and truncated to 500 characters; records
whose text is empty after stripping are dropped; a record is mandatory when
its lower-cased text contains "required" or "must". -/
def extractRequirementsDoc (row : DescRow) : List ReqRow :=
  requirementPatterns.flatMap (fun pat =>
    (findallReq pat.2.1 pat.2.2 row.full_content).filterMap (fun m =>
      let requirementText := (trim m).take 500
      if requirementText.isEmpty then none
      else
        some { carms_id := row.carms_id
               requirement_type := pat.1
               requirement_text := requirementText
               is_mandatory :=
                 pyIn "required".data (lowerStr requirementText) ||
                 pyIn "must".data (lowerStr requirementText) }))

/-- `staging_requirements` over the whole staging frame. -/
def stagingRequirements (docs : List DescRow) : List ReqRow :=
  docs.flatMap extractRequirementsDoc

/-! ## Field Extractor: selection criteria (staging.py lines 354-408) -/

/-- The fixed criteria keyword table. -/
def criteriaKeywords : List (Str × List Str) :=
  [("Academic Performance".data,
    ["academic".data, "grades".data, "gpa".data, "transcript".data, "scores".data]),
   ("Research".data, ["research".data, "publications".data, "scholarly".data]),
   ("Clinical Skills".data,
    ["clinical".data, "clerkship".data, "rotations".data, "electives".data]),
   ("Leadership".data, ["leadership".data, "extracurricular".data, "volunteer".data]),
   ("Personal Qualities".data,
    ["personal".data, "character".data, "integrity".data, "compassion".data]),
   ("Interview Performance".data, ["interview".data, "mmi".data, "communication".data]),
   ("References".data, ["reference".data, "letter".data, "recommendation".data]),
   ("Fit".data, ["fit".data, "alignment".data, "values".data, "culture".data])]

/-- One row of the `staging_selection_criteria` output. -/
structure CritRow where
  carms_id : Str
  criterion_type : Str
  mentions : Nat
  description : Str
deriving DecidableEq

/-- The body of the criterion loop for one criterion type: count the
keywords present in the lower-cased content; when at least one is present,
emit a single record carrying the mention count and an excerpt of up to 200
characters around the first present keyword. -/
def critOne (carmsId : Str) (content contentLower : Str) (ck : Str × List Str) :
    Option CritRow :=
  let mentions := (ck.2.filter (fun kw => pyIn kw contentLower)).length
  if mentions > 0 then
    match ck.2.find? (fun kw => pyIn kw contentLower) with
    | none => none
    | some firstKeyword =>
      match strFind contentLower firstKeyword with
      | none => none
      | some pos =>
        let start := pos - 100
        let stop := min content.length (pos + 100)
        some { carms_id := carmsId
               criterion_type := ck.1
               mentions := mentions
               description := (trim ((content.drop start).take (stop - start))).take 200 }
  else none

/-- `staging_selection_criteria` on one document: one pass of `critOne` over
the fixed criteria table, on the concatenation of the selection-criteria
section and the full content. -/
def extractCriteriaDoc (row : DescRow) : List CritRow :=
  let content := row.selection_criteria ++ (' ' :: row.full_content)
  criteriaKeywords.filterMap (critOne row.carms_id content (lowerStr content))

/-- `staging_selection_criteria` over the whole staging frame. -/
def stagingSelectionCriteria (docs : List DescRow) : List CritRow :=
  docs.flatMap extractCriteriaDoc

/-! ## Warehouse Loader (serving.py)

SQLModel tables become lists of records; `session.add` appends, the
`select(...).first()` upsert probe becomes a first-match search, and
autoincrement ids are assigned as table length + 1 (rows are never
deleted).  Each asset's counters are returned alongside the new table. -/

/-- One row of the `staging_universities` output consumed by
`dim_universities` (province may be null). -/
structure URow where
  university_name : Str
  province : Option Str
  code : Str
  is_francophone : Bool
deriving DecidableEq

/-- A row of the universities dimension table. -/
structure University where
  id : Nat
  name : Str
  code : Str
  province : Option Str
  is_francophone : Bool
deriving DecidableEq

/-- Overwrite the mutable fields of the first row with the given name
(serving.py lines 43-48). -/
def updateFirstUni : List University → URow → List University
  | [], _ => []
  | u :: us, r =>
    if u.name == r.university_name then
      { u with code := r.code, province := r.province,
               is_francophone := r.is_francophone } :: us
    else u :: updateFirstUni us r

/-- One iteration of the `dim_universities` loop: update in place when the
name exists, else insert; the boolean reports an insert. -/
def upsertUniversity (T : List University) (r : URow) : List University × Bool :=
  if T.any (fun u => u.name == r.university_name) then (updateFirstUni T r, false)
  else
    (T ++ [{ id := T.length + 1, name := r.university_name, code := r.code,
             province := r.province, is_francophone := r.is_francophone }], true)

/-- `dim_universities`: fold the upsert over the staging rows, returning the
new table with the inserted and updated counts. -/
def dimUniversitiesLoad : List University → List URow → List University × Nat × Nat
  | T, [] => (T, 0, 0)
  | T, r :: rs =>
    let p := upsertUniversity T r
    let q := dimUniversitiesLoad p.1 rs
    (q.1, (if p.2 then 1 else 0) + q.2.1, (if p.2 then 0 else 1) + q.2.2)

/-- A row of the specialties dimension table. -/
structure Specialty where
  id : Nat
  name : Str
  code : Str
  category : Str
  is_primary_care : Bool
  parent_specialty_id : Option Nat
deriving DecidableEq

/-- Overwrite the mutable fields of the first specialty with the given name
(serving.py lines 99-104). -/
def updateFirstSpec : List Specialty → SRow → List Specialty
  | [], _ => []
  | s :: ss, r =>
    if s.name == r.specialty_name then
      { s with code := r.code, category := r.category,
               is_primary_care := r.is_primary_care } :: ss
    else s :: updateFirstSpec ss r

/-- First pass of `dim_specialties`: upsert every row, recording each row's
id in the name-to-id map; returns table, map, inserted and updated counts. -/
def specPass1 :
    List Specialty → List (Str × Nat) → List SRow →
      List Specialty × List (Str × Nat) × Nat × Nat
  | T, m, [] => (T, m, 0, 0)
  | T, m, r :: rs =>
    match T.find? (fun s => s.name == r.specialty_name) with
    | some existing =>
      let q := specPass1 (updateFirstSpec T r) (dictSet m r.specialty_name existing.id) rs
      (q.1, q.2.1, q.2.2.1, q.2.2.2 + 1)
    | none =>
      let newId := T.length + 1
      let T1 := T ++ [{ id := newId, name := r.specialty_name, code := r.code,
                        category := r.category, is_primary_care := r.is_primary_care,
                        parent_specialty_id := none }]
      let q := specPass1 T1 (dictSet m r.specialty_name newId) rs
      (q.1, q.2.1, q.2.2.1 + 1, q.2.2.2)

/-- Set the parent id on the first specialty with the given name. -/
def setParentFirst : List Specialty → Str → Nat → List Specialty
  | [], _, _ => []
  | s :: ss, n, pid =>
    if s.name == n then { s with parent_specialty_id := some pid } :: ss
    else s :: setParentFirst ss n pid

/-- Second pass of `dim_specialties` (serving.py lines 119-127): for each
subspecialty row whose parent name is truthy and present in the map, link
the parent id. -/
def specPass2 (m : List (Str × Nat)) : List Specialty → List SRow → List Specialty
  | T, [] => T
  | T, r :: rs =>
    if r.is_subspecialty then
      match r.parent_specialty_name with
      | some pn =>
        if pn.isEmpty then specPass2 m T rs
        else
          match dictGet m pn with
          | some pid => specPass2 m (setParentFirst T r.specialty_name pid) rs
          | none => specPass2 m T rs
      | none => specPass2 m T rs
    else specPass2 m T rs

/-- `dim_specialties`: both passes; returns the table with the inserted and
updated counts. -/
def dimSpecialtiesLoad (T : List Specialty) (rows : List SRow) :
    List Specialty × Nat × Nat :=
  let p := specPass1 T [] rows
  (specPass2 p.2.1 p.1 rows, p.2.2.1, p.2.2.2)

/-- A row of the programs fact table. -/
structure Program where
  id : Nat
  program_code : Str
  program_name : Str
  university_id : Nat
  specialty_id : Nat
  carms_year : Nat
  source_file : Str
  is_accepting_applications : Bool
  description : Option Str
  program_overview : Option Str
  curriculum_highlights : Option Str
deriving DecidableEq

/-- Python falsiness of an optional integer (`if not university_id`): true
for `None` and for `0`. -/
def pyFalsy : Option Nat → Bool
  | none => true
  | some n => n == 0

/-- The name-to-id university lookup built once per load pass
(serving.py lines 176-178). -/
def uniLookup (unis : List University) : List (Str × Nat) :=
  unis.foldl (fun d u => dictSet d u.name u.id) []

/-- The name-to-id specialty lookup (serving.py lines 180-182). -/
def specLookup (specs : List Specialty) : List (Str × Nat) :=
  specs.foldl (fun d s => dictSet d s.name s.id) []

/-- Running state of the `fact_programs` loop. -/
structure FactState where
  programs : List Program
  inserted : Nat
  updated : Nat
  skipped : Nat
deriving DecidableEq

/-- Overwrite the mutable fields of the first program with the given code
(serving.py lines 206-218). -/
def updateFirstProg (uId sId : Nat) (r : ProgRow) (descRow : Option DescRow) :
    List Program → List Program
  | [] => []
  | p :: ps =>
    if p.program_code == r.program_code then
      (let p1 := { p with program_name := r.program_name, university_id := uId,
                          specialty_id := sId, carms_year := r.carms_year }
       match descRow with
       | some d =>
         { p1 with description := some (d.full_content.take 10000),
                   program_overview := some (d.program_overview.take 5000),
                   curriculum_highlights := some (d.curriculum.take 5000) }
       | none => p1) :: ps
    else p :: updateFirstProg uId sId r descRow ps

/-- One iteration of the `fact_programs` loop over an indexed staging row:
invalid rows are filtered out before the loop; a candidate whose university
or specialty lookup is falsy is skipped and counted; otherwise the program
is updated in place or inserted, joined positionally to its description. -/
def factStep (uL sL : List (Str × Nat)) (descs : List DescRow)
    (st : FactState) (ir : Nat × ProgRow) : FactState :=
  let r := ir.2
  if r.is_valid then
    let uid := dictGet uL r.university_name
    let sid := dictGet sL r.specialty_name
    if pyFalsy uid || pyFalsy sid then { st with skipped := st.skipped + 1 }
    else
      let descRow := descs.get? ir.1
      if st.programs.any (fun p => p.program_code == r.program_code) then
        { st with
            programs := updateFirstProg (uid.getD 0) (sid.getD 0) r descRow st.programs,
            updated := st.updated + 1 }
      else
        let base : Program :=
          { id := st.programs.length + 1, program_code := r.program_code,
            program_name := r.program_name, university_id := uid.getD 0,
            specialty_id := sid.getD 0, carms_year := r.carms_year,
            source_file := r.source_file, is_accepting_applications := true,
            description := none, program_overview := none,
            curriculum_highlights := none }
        let newP :=
          match descRow with
          | some d =>
            { base with description := some (d.full_content.take 10000),
                        program_overview := some (d.program_overview.take 5000),
                        curriculum_highlights := some (d.curriculum.take 5000) }
          | none => base
        { st with programs := st.programs ++ [newP], inserted := st.inserted + 1 }
  else st

/-- `fact_programs`: fold the step over the indexed staging rows. -/
def factProgramsLoad (unis : List University) (specs : List Specialty)
    (progs0 : List Program) (rows : List ProgRow) (descs : List DescRow) : FactState :=
  rows.enum.foldl (factStep (uniLookup unis) (specLookup specs) descs)
    { programs := progs0, inserted := 0, updated := 0, skipped := 0 }

/-! ## Record Linker and child-record loaders (serving.py lines 255-432) -/

/-- The code-to-id program lookup built by each child loader
(serving.py lines 278-281). -/
def buildProgramLookup (progs : List Program) : List (Str × Nat) :=
  progs.foldl (fun d p => dictSet d p.program_code p.id) []

/-- The Record Linker: scan the lookup in order and return the id of the
first program whose code is a substring of the child's identifier or whose
identifier is a substring of the code (serving.py lines 288-292). -/
def findProgramMatch : List (Str × Nat) → Str → Option Nat
  | [], _ => none
  | e :: rest, carmsId =>
    if pyIn e.1 carmsId || pyIn carmsId e.1 then some e.2
    else findProgramMatch rest carmsId

/-- A row of the requirements table. -/
structure Requirement where
  program_id : Nat
  requirement_type : Str
  requirement_text : Str
  is_mandatory : Bool
deriving DecidableEq

/-- `dim_requirements`: link each staging requirement to a program; matched
rows are inserted and counted, unmatched rows are silently dropped. -/
def dimRequirementsLoad (L : List (Str × Nat)) :
    List Requirement → List ReqRow → List Requirement × Nat
  | T, [] => (T, 0)
  | T, r :: rs =>
    match findProgramMatch L r.carms_id with
    | none => dimRequirementsLoad L T rs
    | some pid =>
      let q := dimRequirementsLoad L
        (T ++ [{ program_id := pid, requirement_type := r.requirement_type,
                 requirement_text := r.requirement_text,
                 is_mandatory := r.is_mandatory }]) rs
      (q.1, q.2 + 1)

/-- A row of the selection-criteria table. -/
structure SelectionCriteria where
  program_id : Nat
  criterion_type : Str
  weight_description : Str
deriving DecidableEq

/-- `dim_selection_criteria`: same linking pattern as requirements. -/
def dimSelectionCriteriaLoad (L : List (Str × Nat)) :
    List SelectionCriteria → List CritRow → List SelectionCriteria × Nat
  | T, [] => (T, 0)
  | T, r :: rs =>
    match findProgramMatch L r.carms_id with
    | none => dimSelectionCriteriaLoad L T rs
    | some pid =>
      let q := dimSelectionCriteriaLoad L
        (T ++ [{ program_id := pid, criterion_type := r.criterion_type,
                 weight_description := r.description }]) rs
      (q.1, q.2 + 1)

/-- One row of the `staging_training_sites` output consumed by
`dim_training_sites`. -/
structure SiteRow where
  carms_id : Str
  site_name : Str
  site_type : Str
deriving DecidableEq

/-- A row of the training-sites table. -/
structure TrainingSite where
  program_id : Nat
  site_name : Str
  site_type : Str
deriving DecidableEq

/-- `dim_training_sites`: same linking pattern as requirements. -/
def dimTrainingSitesLoad (L : List (Str × Nat)) :
    List TrainingSite → List SiteRow → List TrainingSite × Nat
  | T, [] => (T, 0)
  | T, r :: rs =>
    match findProgramMatch L r.carms_id with
    | none => dimTrainingSitesLoad L T rs
    | some pid =>
      let q := dimTrainingSitesLoad L
        (T ++ [{ program_id := pid, site_name := r.site_name,
                 site_type := r.site_type }]) rs
      (q.1, q.2 + 1)

/-! ## The serving run over the whole warehouse -/

/-- The six warehouse tables. -/
structure DB where
  universities : List University
  specialties : List Specialty
  programs : List Program
  requirements : List Requirement
  criteria : List SelectionCriteria
  sites : List TrainingSite
deriving DecidableEq

/-- The staged inputs of one serving run (staging assets are deterministic,
so an unchanged raw input yields the same staged frames on every run). -/
structure StagingData where
  universities : List URow
  specialties : List SRow
  programs : List ProgRow
  descriptions : List DescRow
  requirements : List ReqRow
  criteria : List CritRow
  sites : List SiteRow
deriving DecidableEq

/-- A serving run's result: the new warehouse state plus every counter the
assets report in their run output. -/
structure RunReport where
  db : DB
  uniInserted : Nat
  uniUpdated : Nat
  specInserted : Nat
  specUpdated : Nat
  progInserted : Nat
  progUpdated : Nat
  progSkipped : Nat
  reqInserted : Nat
  critInserted : Nat
  siteInserted : Nat
deriving DecidableEq

/-- The empty warehouse. -/
def emptyDB : DB :=
  { universities := [], specialties := [], programs := [],
    requirements := [], criteria := [], sites := [] }

/-- One full serving run in asset-dependency order: universities and
specialties dimensions, then the program facts, then the three child-record
loaders, each of which rebuilds the program lookup from the fact table. -/
def servingRun (db : DB) (s : StagingData) : RunReport :=
  let u := dimUniversitiesLoad db.universities s.universities
  let sp := dimSpecialtiesLoad db.specialties s.specialties
  let f := factProgramsLoad u.1 sp.1 db.programs s.programs s.descriptions
  let rq := dimRequirementsLoad (buildProgramLookup f.programs) db.requirements s.requirements
  let cr := dimSelectionCriteriaLoad (buildProgramLookup f.programs) db.criteria s.criteria
  let st := dimTrainingSitesLoad (buildProgramLookup f.programs) db.sites s.sites
  { db := { universities := u.1, specialties := sp.1, programs := f.programs,
            requirements := rq.1, criteria := cr.1, sites := st.1 }
    uniInserted := u.2.1, uniUpdated := u.2.2
    specInserted := sp.2.1, specUpdated := sp.2.2
    progInserted := f.inserted, progUpdated := f.updated, progSkipped := f.skipped
    reqInserted := rq.2, critInserted := cr.2, siteInserted := st.2 }

/-! ## Specification-side definitions

These definitions follow the specification's wording (not the source) and
exist to be compared with the source-derived definitions above. -/

/-- The ordered category rule table of §4.4 / the `categorize_specialty`
chain, as an explicit first-match list: each entry is a case-insensitive
check on the lower-cased name paired with its category. -/
def categoryRules : List ((Str → Bool) × Str) :=
  [((fun nl => primaryCareKeywords.any (fun kw => pyIn kw nl)), "Primary Care".data),
   ((fun nl => surgicalKeywords.any (fun kw => pyIn kw nl)), "Surgical".data),
   ((fun nl => medicalKeywords.any (fun kw => pyIn kw nl)), "Medical".data),
   ((fun nl => pyIn "psychiatry".data nl), "Psychiatry".data),
   ((fun nl => pyIn "pediatric".data nl || pyIn "paediatric".data nl), "Pediatrics".data),
   ((fun nl => pyIn "obstetric".data nl || pyIn "gynecol".data nl),
    "Obstetrics & Gynecology".data),
   ((fun nl => pyIn "diagnostic".data nl || pyIn "radiology".data nl), "Diagnostic".data),
   ((fun nl => pyIn "pathology".data nl), "Laboratory".data)]

/-- First-match resolution over an ordered rule table, defaulting to
`"Other"`. -/
def firstCategory : List ((Str → Bool) × Str) → Str → Str
  | [], _ => "Other".data
  | r :: rs, nl => if r.1 nl then r.2 else firstCategory rs nl

/-- The university code rule of `generate_code` with the truncation limit as
a parameter, for comparing the two code generators. -/
def generateCodeWith (limit : Nat) (name : Str) : Str :=
  let ws := words name
  if ws.length > 0 then
    if ws.length ≥ 2 then
      upperStr (((ws.filter (fun w => w.length > 0)).map (fun w => w.headD ' ')).take limit)
    else upperStr (name.take limit)
  else "UNK".data

/-- Modelled from the claim's wording: strip a trailing `" - <suffix>"`
clause (text from the first spaced hyphen on). -/
def stripSpacedClause (name : Str) : Str :=
  match strFind name " - ".data with
  | some i => name.take i
  | none => name

/-- The specialty code as claim C7 states it: strip the spaced-hyphen
clause, then apply the university code rule (4-character limit). -/
def specialtyCodeClaimed (name : Str) : Str := generateCode (stripSpacedClause name)

/-! ## Concrete scenario data used by the theorems -/

/-- Staging row for the University of Toronto with province Ontario. -/
def uoftOntario : URow :=
  { university_name := "University of Toronto".data, province := some "Ontario".data,
    code := "UOT".data, is_francophone := false }

/-- The same university re-ingested with province Quebec. -/
def uoftQuebec : URow := { uoftOntario with province := some "Quebec".data }

/-- A staged Family Medicine specialty row. -/
def fmSRow : SRow := stagingSpecialtyRow "Family Medicine".data

/-- A valid staged program row for the single-program scenario. -/
def progRowFM : ProgRow :=
  { program_code := "27447".data, program_name := "Family Medicine Toronto".data,
    program_stream := [], program_site := [],
    specialty_name := "Family Medicine".data,
    university_name := "University of Toronto".data,
    carms_year := 2025, source_file := "1503_program_master.xlsx".data,
    is_valid := true }

/-- A staged requirement child record whose loose identifier contains the
program code. -/
def reqRowFM : ReqRow :=
  { carms_id := "1503-27447".data, requirement_type := "Eligibility".data,
    requirement_text := "Must hold an MD".data, is_mandatory := true }

/-- The staged inputs of the single-program pipeline scenario. -/
def stgC1 : StagingData :=
  { universities := [uoftOntario], specialties := [fmSRow], programs := [progRowFM],
    descriptions := [], requirements := [reqRowFM], criteria := [], sites := [] }

/-- A persisted university dimension row (not the one the candidate names). -/
def mcgillUni : University :=
  { id := 1, name := "McGill University".data, code := "MU".data,
    province := some "Quebec".data, is_francophone := true }

/-- A persisted specialty dimension row that the candidate resolves. -/
def fmSpecDim : Specialty :=
  { id := 1, name := "Family Medicine".data, code := "FM".data,
    category := "Primary Care".data, is_primary_care := true,
    parent_specialty_id := none }

/-- A valid program candidate naming a university absent from the
dimension set. -/
def progMissingUni : ProgRow :=
  { progRowFM with university_name := "Nonexistent University".data }

/-- A staged requirement child whose identifier matches no fact code in
either direction. -/
def unmatchedReq : ReqRow :=
  { carms_id := "99999".data, requirement_type := "Visa".data,
    requirement_text := "x".data, is_mandatory := false }

/-- A description document whose content matches two keywords of the single
criteria category Research. -/
def docTwoResearchKw : DescRow :=
  { carms_id := "27447".data, source_url := [],
    full_content := "research and publications".data,
    program_overview := [], curriculum := [], selection_criteria := [],
    application_process := [], contact_info := [], content_sections := [],
    total_length := 25 }

/-- A description document with two identical eligibility matches. -/
def docTwoEligibility : DescRow :=
  { carms_id := "27447".data, source_url := [],
    full_content := "eligibility: A\n\neligibility: A".data,
    program_overview := [], curriculum := [], selection_criteria := [],
    application_process := [], contact_info := [], content_sections := [],
    total_length := 30 }

/-! ## Theorems -/

/-- Claim C4: the record linker assigns a child to the first fact, in the
fixed scan order, whose program code is a substring of the child's
identifier or whose identifier is a substring of the code, with
case-sensitive containment in both directions; with child identifier
"1503-27447" and facts coded "27447" and "274", both qualify and the
one earlier in scan order is chosen. -/
theorem claim_C4_record_linker :
    (∀ (pre post : List (Str × Nat)) (e : Str × Nat) (carmsId : Str),
        (∀ e2 ∈ pre, (pyIn e2.1 carmsId || pyIn carmsId e2.1) = false) →
        (pyIn e.1 carmsId || pyIn carmsId e.1) = true →
        findProgramMatch (pre ++ e :: post) carmsId = some e.2) ∧
    (pyIn "27447".data "1503-27447".data || pyIn "1503-27447".data "27447".data) = true ∧
    (pyIn "274".data "1503-27447".data || pyIn "1503-27447".data "274".data) = true ∧
    findProgramMatch [("27447".data, 1), ("274".data, 2)] "1503-27447".data = some 1 ∧
    findProgramMatch [("274".data, 2), ("27447".data, 1)] "1503-27447".data = some 2 ∧
    findProgramMatch [("ABC".data, 7)] "xabcy".data = none := by
  refine ⟨?_, by decide, by decide, by decide, by decide, by decide⟩
  intro pre post e carmsId hpre he
  induction pre with
  | nil => simp [findProgramMatch, he]
  | cons a as ih =>
    have ha := hpre a (List.mem_cons_self a as)
    simp only [List.cons_append, findProgramMatch, ha, if_false, Bool.false_eq_true]
    exact ih (fun x hx => hpre x (List.mem_cons_of_mem a hx))

/-- Witness for C4: the first-match rule applied at the concrete two-fact
scan. -/
theorem claim_C4_record_linker_witness :
    findProgramMatch [("27447".data, 1)] "1503-27447".data = some 1 :=
  claim_C4_record_linker.1 [] [] ("27447".data, 1) "1503-27447".data
    (by intro e2 h2; cases h2) (by decide)

/-- Claim C8: specialty categorization applies the fixed case-insensitive
keyword checks in the documented order and returns the category of the
first check that matches; "Family Medicine" resolves to "Primary Care",
and "Surgery - Cardiac" is a subspecialty with parent "Surgery". -/
theorem claim_C8_categorization :
    (∀ name : Str, categorizeSpecialty name = firstCategory categoryRules (lowerStr name)) ∧
    categorizeSpecialty "Family Medicine".data = "Primary Care".data ∧
    (stagingSpecialtyRow "Family Medicine".data).category = "Primary Care".data ∧
    (stagingSpecialtyRow "Surgery - Cardiac".data).is_subspecialty = true ∧
    (stagingSpecialtyRow "Surgery - Cardiac".data).parent_specialty_name =
      some "Surgery".data := by
  refine ⟨?_, by decide, by decide, by decide, by decide⟩
  intro name
  rfl

/-- Counterexample to claim C9: a document with no heading lines parses to
the empty section mapping, not to a single default section holding the
text. -/
theorem claim_C9_counterexample :
    parseSections "no headings here\njust text".data = ([] : List (Str × Str)) ∧
    (parseSections "no headings here\njust text".data).length ≠ 1 := by
  exact ⟨by decide, by decide⟩

/-- Claim C9 as amended: for every input document none of whose lines starts
with the heading marker, the section parser yields no sections at all;
text outside any heading is discarded rather than kept as a default
section. -/
theorem claim_C9_amended (content : Str)
    (h : ∀ l ∈ splitOnChar '\n' content, isPrefixB "#".data l = false) :
    parseSections content = [] := by
  unfold parseSections
  generalize splitOnChar '\n' content = lines at h
  revert h
  suffices H : (∀ l ∈ lines, isPrefixB "#".data l = false) →
      ∀ cc, parseSectionsLoop lines none cc [] = [] from fun h => H h []
  induction lines with
  | nil => intro _ cc; rfl
  | cons l ls ih =>
    intro h cc
    have hl := h l (List.mem_cons_self l ls)
    simp only [parseSectionsLoop, hl, Bool.false_eq_true, if_false]
    exact ih (fun x hx => h x (List.mem_cons_of_mem l hx)) (cc ++ [l])

/-- Witness for C9 (amended): the headingless document parses to nothing. -/
theorem claim_C9_amended_witness :
    parseSections "plain text only".data = [] :=
  claim_C9_amended "plain text only".data (by decide)

/-- Claim C10: a staging program row whose trimmed code is shorter than 3
characters or whose university name is empty is flagged invalid, and the
fact loader's step leaves the entire state untouched on a row not flagged
valid, regardless of how its names would resolve. -/
theorem claim_C10_invalid_rows :
    (∀ raw : RawProgramRow,
        (trim raw.program_code).length < 3 ∨ raw.university_name = [] →
        (stagingProgramRow raw).is_valid = false) ∧
    (∀ (uL sL : List (Str × Nat)) (descs : List DescRow) (st : FactState)
        (idx : Nat) (r : ProgRow), r.is_valid = false →
        factStep uL sL descs st (idx, r) = st) := by
  constructor
  · intro raw h
    rcases h with h | h <;> simp [stagingProgramRow, h]
  · intro uL sL descs st idx r h
    simp [factStep, h]

/-- Witness for C10: a concrete short-code row is invalid and is a no-op for
the fact loader. -/
theorem claim_C10_invalid_rows_witness :
    (stagingProgramRow
      { program_code := " AB ".data, program_name := [], program_stream := [],
        program_site := [], specialty_name := [],
        university_name := "U of T".data }).is_valid = false ∧
    factStep [] [] [] { programs := [], inserted := 0, updated := 0, skipped := 0 }
      (0, { progMissingUni with is_valid := false }) =
      { programs := [], inserted := 0, updated := 0, skipped := 0 } :=
  ⟨claim_C10_invalid_rows.1 _ (Or.inl (by decide)),
   claim_C10_invalid_rows.2 [] [] [] _ 0 _ (by decide)⟩

/-- Counterexample to claim C5: loading one unmatched child leaves the run
output — the stored table together with the reported inserted count, the
only counter the loader returns — exactly equal to the output of loading no
children at all, so no count of unmatched children is incremented or
reported. -/
theorem claim_C5_counterexample :
    dimRequirementsLoad [("27447".data, 1)] [] [unmatchedReq] =
      dimRequirementsLoad [("27447".data, 1)] [] [] ∧
    dimRequirementsLoad [("27447".data, 1)] [] [unmatchedReq] = ([], 0) := by
  exact ⟨by decide, by decide⟩

/-- Claim C5 as amended: a child record whose identifier matches no fact
under the bidirectional substring test is silently dropped by each child
loader — no row is stored and the run output is unchanged; no unmatched
count is maintained (only the inserted count is reported). -/
theorem claim_C5_amended :
    (∀ (L : List (Str × Nat)) (r : ReqRow) (rs : List ReqRow) (T : List Requirement),
        findProgramMatch L r.carms_id = none →
        dimRequirementsLoad L T (r :: rs) = dimRequirementsLoad L T rs) ∧
    (∀ (L : List (Str × Nat)) (c : CritRow) (cs : List CritRow)
        (TC : List SelectionCriteria),
        findProgramMatch L c.carms_id = none →
        dimSelectionCriteriaLoad L TC (c :: cs) = dimSelectionCriteriaLoad L TC cs) ∧
    (∀ (L : List (Str × Nat)) (s : SiteRow) (ss : List SiteRow)
        (TS : List TrainingSite),
        findProgramMatch L s.carms_id = none →
        dimTrainingSitesLoad L TS (s :: ss) = dimTrainingSitesLoad L TS ss) := by
  refine ⟨?_, ?_, ?_⟩
  · intro L r rs T h; simp [dimRequirementsLoad, h]
  · intro L c cs TC h; simp [dimSelectionCriteriaLoad, h]
  · intro L s ss TS h; simp [dimTrainingSitesLoad, h]

/-- Witness for C5 (amended): dropping the concrete unmatched child is a
no-op for the requirements loader. -/
theorem claim_C5_amended_witness :
    dimRequirementsLoad [("12345".data, 3)] [] [unmatchedReq] =
      dimRequirementsLoad [("12345".data, 3)] [] [] :=
  claim_C5_amended.1 [("12345".data, 3)] unmatchedReq [] [] (by decide)

/-- A record emitted by the criterion loop carries the type of its table
entry. -/
theorem critOne_type (carmsId content contentLower : Str) (ck : Str × List Str)
    (rec : CritRow) (h : critOne carmsId content contentLower ck = some rec) :
    rec.criterion_type = ck.1 := by
  simp only [critOne] at h
  split at h
  · split at h
    · exact Option.noConfusion h
    · split at h
      · exact Option.noConfusion h
      · simp only [Option.some.injEq] at h
        subst h
        rfl
  · exact Option.noConfusion h

/-- Records of one criterion type emitted by a pass over the keyword table
are at most as many as the table entries carrying that type. -/
theorem filterMap_count_by_key (g : Str × List Str → Option CritRow) (ty : Str)
    (hg : ∀ ck rec, g ck = some rec → rec.criterion_type = ck.1) :
    ∀ ks : List (Str × List Str),
      ((ks.filterMap g).filter (fun r => r.criterion_type == ty)).length ≤
        ks.countP (fun ck => ck.1 == ty) := by
  intro ks
  induction ks with
  | nil => simp
  | cons k ks ih =>
    rw [List.filterMap_cons, List.countP_cons]
    cases hk : g k with
    | none => exact le_trans ih (Nat.le_add_right _ _)
    | some rec =>
      rw [List.filter_cons]
      have hty := hg k rec hk
      by_cases hr : (rec.criterion_type == ty) = true
      · have hk2 : (k.1 == ty) = true := by rw [← hty]; exact hr
        rw [if_pos hr, hk2, List.length_cons]
        simpa using Nat.add_le_add_right ih 1
      · rw [if_neg hr]
        exact le_trans ih (Nat.le_add_right _ _)

/-- A keyword table with pairwise-distinct keys has at most one entry of any
given type. -/
theorem nodup_keys_countP_le_one (ty : Str) :
    ∀ ks : List (Str × List Str), (ks.map (·.1)).Nodup →
      ks.countP (fun ck => ck.1 == ty) ≤ 1 := by
  intro ks
  induction ks with
  | nil => intro _; simp
  | cons k ks ih =>
    intro hnd
    rw [List.map_cons, List.nodup_cons] at hnd
    rw [List.countP_cons]
    by_cases hk : (k.1 == ty) = true
    · have hty : k.1 = ty := eq_of_beq hk
      have h0 : ks.countP (fun ck => ck.1 == ty) = 0 := by
        rw [List.countP_eq_zero]
        intro x hx hxty
        exact hnd.1 (by
          rw [hty, ← eq_of_beq hxty]
          exact List.mem_map.mpr ⟨x, hx, rfl⟩)
      simp [h0, hk]
    · simp only [hk, if_false]
      simpa using ih hnd.2

/-- Counterexample to claim C6: a document whose content matches two
keywords of the Research criteria rule yields a single selection-criteria
record (with mention count 2), not one record per match. -/
theorem claim_C6_counterexample :
    (stagingSelectionCriteria [docTwoResearchKw]).length = 1 ∧
    (stagingSelectionCriteria [docTwoResearchKw]).map (·.mentions) = [2] ∧
    pyIn "research".data
      (lowerStr (docTwoResearchKw.selection_criteria ++
        (' ' :: docTwoResearchKw.full_content))) = true ∧
    pyIn "publications".data
      (lowerStr (docTwoResearchKw.selection_criteria ++
        (' ' :: docTwoResearchKw.full_content))) = true := by
  exact ⟨by decide, by decide, by decide, by decide⟩

/-- Claim C6 as amended: for requirements every regex match with nonempty
stripped text is its own child record, including exact duplicates (no
deduplication); for selection criteria the extractor instead emits at most
one record per category per document, recording the keyword-match count in
a mentions field. -/
theorem claim_C6_amended :
    (∀ (doc : DescRow) (ty : Str),
        ((extractCriteriaDoc doc).filter (fun r => r.criterion_type == ty)).length ≤ 1) ∧
    (extractRequirementsDoc docTwoEligibility).map (fun r => r.requirement_text) =
      ["A".data, "A".data] ∧
    (extractRequirementsDoc docTwoEligibility).length = 2 := by
  refine ⟨?_, by decide, by decide⟩
  intro doc ty
  unfold extractCriteriaDoc
  exact le_trans
    (filterMap_count_by_key _ ty (fun ck rec h => critOne_type _ _ _ ck rec h)
      criteriaKeywords)
    (nodup_keys_countP_le_one ty criteriaKeywords (by decide))

/-- Counterexample to claim C7: on the single-word name "Anesthesiology"
the source derives the 3-character code "ANE", while the claim's rule
(the university 4-character rule after clause stripping) yields "ANES". -/
theorem claim_C7_counterexample :
    generateSpecialtyCode "Anesthesiology".data = "ANE".data ∧
    specialtyCodeClaimed "Anesthesiology".data = "ANES".data ∧
    generateSpecialtyCode "Anesthesiology".data ≠
      specialtyCodeClaimed "Anesthesiology".data := by
  exact ⟨by decide, by decide, by decide⟩

/-- Every word produced by the whitespace splitter is nonempty. -/
theorem wordsAux_ne_nil : ∀ (s acc w : Str), w ∈ wordsAux s acc → w ≠ [] := by
  intro s
  induction s with
  | nil =>
    intro acc w hw
    unfold wordsAux at hw
    split at hw
    · cases hw
    · rename_i hne
      rw [List.mem_singleton] at hw
      subst hw
      simp only [ne_eq, List.reverse_eq_nil_iff]
      intro hacc
      exact hne (by simp [hacc])
  | cons c rest ih =>
    intro acc w hw
    unfold wordsAux at hw
    split at hw
    · split at hw
      · exact ih [] w hw
      · rename_i hne
        rcases List.mem_cons.mp hw with h | h
        · subst h
          simp only [ne_eq, List.reverse_eq_nil_iff]
          intro hacc
          exact hne (by simp [hacc])
        · exact ih [] w h
    · exact ih (c :: acc) w hw

/-- Claim C7 as amended: the university code generator is the parametric
rule at limit 4, and the specialty code generator is the same rule at
limit 3 applied to the name with its hyphen clause stripped (whenever the
stripped name still contains a word). -/
theorem claim_C7_amended :
    (∀ name : Str, generateCode name = generateCodeWith 4 name) ∧
    (∀ name : Str, words (stripClause name) ≠ [] →
        generateSpecialtyCode name = generateCodeWith 3 (stripClause name)) := by
  constructor
  · intro name; rfl
  · intro name h
    have hf : (words (stripClause name)).filter (fun w => w.length > 0) =
        words (stripClause name) := by
      apply List.filter_eq_self.mpr
      intro w hw
      have hw2 := wordsAux_ne_nil (stripClause name) [] w hw
      simpa [List.length_pos] using hw2
    have hpos : 0 < (words (stripClause name)).length := List.length_pos.mpr h
    by_cases h2 : 2 ≤ (words (stripClause name)).length
    · have h1 : 1 < (words (stripClause name)).length := h2
      simp [generateSpecialtyCode, generateCodeWith, hf, hpos, h1, h2]
    · have h1 : ¬(1 < (words (stripClause name)).length) := h2
      simp [generateSpecialtyCode, generateCodeWith, hf, hpos, h1, h2]

/-- Witness for C7 (amended): the stripped "Surgery - Cardiac" has a word,
and its specialty code agrees with the limit-3 university rule. -/
theorem claim_C7_amended_witness :
    generateSpecialtyCode "Surgery - Cardiac".data =
      generateCodeWith 3 (stripClause "Surgery - Cardiac".data) :=
  claim_C7_amended.2 "Surgery - Cardiac".data (by decide)

/-- Updating the first matching university row preserves the table length. -/
theorem updateFirstUni_length (T : List University) (r : URow) :
    (updateFirstUni T r).length = T.length := by
  induction T with
  | nil => rfl
  | cons u us ih =>
    by_cases h : (u.name == r.university_name) = true <;>
      simp [updateFirstUni, h, ih]

/-- Updating the first matching university row changes no name, so the
number of rows carrying any given name is preserved. -/
theorem updateFirstUni_countP (T : List University) (r : URow) (n : Str) :
    (updateFirstUni T r).countP (fun u => u.name == n) =
      T.countP (fun u => u.name == n) := by
  induction T with
  | nil => rfl
  | cons u us ih =>
    by_cases h : (u.name == r.university_name) = true <;>
      simp [updateFirstUni, h, List.countP_cons, ih]

/-- The first row with the upserted name has exactly its mutable fields
overwritten. -/
theorem updateFirstUni_find (T : List University) (r : URow) :
    (updateFirstUni T r).find? (fun u => u.name == r.university_name) =
      (T.find? (fun u => u.name == r.university_name)).map
        (fun u => { u with code := r.code, province := r.province,
                           is_francophone := r.is_francophone }) := by
  induction T with
  | nil => rfl
  | cons u us ih =>
    by_cases h : (u.name == r.university_name) = true
    · simp [updateFirstUni, h, List.find?_cons_of_pos]
    · simp [updateFirstUni, h, List.find?_cons_of_neg, ih]

/-- Claim C3: a university record whose natural key already exists updates
the existing row's mutable fields in place and never inserts a second row
with that name; ingesting "University of Toronto" twice with different
provinces leaves exactly one row carrying the second province. -/
theorem claim_C3_university_upsert :
    (∀ (T : List University) (r : URow),
        T.any (fun u => u.name == r.university_name) = true →
        (upsertUniversity T r).1.length = T.length ∧
        (upsertUniversity T r).1.countP (fun u => u.name == r.university_name) =
          T.countP (fun u => u.name == r.university_name) ∧
        (upsertUniversity T r).1.find? (fun u => u.name == r.university_name) =
          (T.find? (fun u => u.name == r.university_name)).map
            (fun u => { u with code := r.code, province := r.province,
                               is_francophone := r.is_francophone })) ∧
    ((dimUniversitiesLoad (dimUniversitiesLoad [] [uoftOntario]).1 [uoftQuebec]).1 =
        [{ id := 1, name := "University of Toronto".data, code := "UOT".data,
           province := some "Quebec".data, is_francophone := false }] ∧
      (dimUniversitiesLoad (dimUniversitiesLoad [] [uoftOntario]).1
          [uoftQuebec]).1.countP
        (fun u => u.name == "University of Toronto".data) = 1) := by
  constructor
  · intro T r h
    refine ⟨?_, ?_, ?_⟩
    · simp [upsertUniversity, h, updateFirstUni_length]
    · simp [upsertUniversity, h, updateFirstUni_countP]
    · simp [upsertUniversity, h, updateFirstUni_find]
  · exact ⟨by decide, by decide⟩

/-- Witness for C3: the upsert preserves the one-row table when the same
name is re-ingested. -/
theorem claim_C3_university_upsert_witness :
    (upsertUniversity (dimUniversitiesLoad [] [uoftOntario]).1 uoftQuebec).1.length =
      (dimUniversitiesLoad [] [uoftOntario]).1.length :=
  (claim_C3_university_upsert.1 _ uoftQuebec (by decide)).1

/-- Looking up a key in a cons dict inspects the head first. -/
theorem dictGet_cons {β : Type} (e : Str × β) (d : List (Str × β)) (k : Str) :
    dictGet (e :: d) k = if e.1 == k then some e.2 else dictGet d k := by
  by_cases h : (e.1 == k) = true <;>
    simp [dictGet, List.find?_cons_of_pos, List.find?_cons_of_neg, h]

/-- A value observed after a dict assignment is the assigned value or was
already observable. -/
theorem dictGet_dictSet_cases {β : Type} :
    ∀ (d : List (Str × β)) (k k2 : Str) (v w : β),
      dictGet (dictSet d k v) k2 = some w → w = v ∨ dictGet d k2 = some w := by
  intro d
  induction d with
  | nil =>
    intro k k2 v w h
    rw [show dictSet ([] : List (Str × β)) k v = [(k, v)] from rfl, dictGet_cons] at h
    split at h
    · exact Or.inl (Option.some.inj h).symm
    · exact absurd h (by simp [dictGet])
  | cons e es ih =>
    intro k k2 v w h
    by_cases hk : (e.1 == k) = true
    · rw [show dictSet (e :: es) k v = (e.1, v) :: es by simp [dictSet, hk],
          dictGet_cons] at h
      rw [dictGet_cons]
      dsimp only at h
      split at h
      · exact Or.inl (Option.some.inj h).symm
      · rename_i hk2
        rw [if_neg hk2]
        exact Or.inr h
    · rw [show dictSet (e :: es) k v = e :: dictSet es k v by simp [dictSet, hk],
          dictGet_cons] at h
      rw [dictGet_cons]
      split at h
      · rename_i hk2
        rw [if_pos hk2]
        exact Or.inr h
      · rename_i hk2
        rw [if_neg hk2]
        exact ih k k2 v w h

/-- Every value observable in a dict built by folding assignments over a
list comes from the list (or from the initial dict). -/
theorem foldl_dictSet_values {α : Type} (f : α → Str) (g : α → Nat) :
    ∀ (L : List α) (d : List (Str × Nat)) (k : Str) (v : Nat),
      dictGet (L.foldl (fun d2 a => dictSet d2 (f a) (g a)) d) k = some v →
      v ∈ L.map g ∨ dictGet d k = some v := by
  intro L
  induction L with
  | nil => intro d k v h; exact Or.inr h
  | cons a as ih =>
    intro d k v h
    rw [List.foldl_cons] at h
    rcases ih _ k v h with h2 | h2
    · exact Or.inl (List.mem_cons_of_mem _ h2)
    · rcases dictGet_dictSet_cases d (f a) k (g a) v h2 with h3 | h3
      · rw [List.map_cons, h3]
        exact Or.inl (List.mem_cons_self _ _)
      · exact Or.inr h3

/-- Ids served by the university lookup are ids of persisted universities. -/
theorem uniLookup_mem_ids (unis : List University) (k : Str) (v : Nat)
    (h : dictGet (uniLookup unis) k = some v) : v ∈ unis.map (·.id) := by
  unfold uniLookup at h
  rcases foldl_dictSet_values (fun u => u.name) (fun u => u.id) unis [] k v h with h2 | h2
  · exact h2
  · exact absurd h2 (by simp [dictGet])

/-- Ids served by the specialty lookup are ids of persisted specialties. -/
theorem specLookup_mem_ids (specs : List Specialty) (k : Str) (v : Nat)
    (h : dictGet (specLookup specs) k = some v) : v ∈ specs.map (·.id) := by
  unfold specLookup at h
  rcases foldl_dictSet_values (fun s => s.name) (fun s => s.id) specs [] k v h with h2 | h2
  · exact h2
  · exact absurd h2 (by simp [dictGet])

/-- A non-falsy optional id is `some` of its default extraction. -/
theorem pyFalsy_false_eq {o : Option Nat} (h : pyFalsy o = false) :
    o = some (o.getD 0) := by
  cases o with
  | none => exact absurd h (by simp [pyFalsy])
  | some n => rfl

/-- A row of the updated program table is an untouched old row or carries
the freshly resolved dimension ids. -/
theorem updateFirstProg_mem (uI sI : Nat) (r : ProgRow) (dr : Option DescRow) :
    ∀ (T : List Program) (p : Program), p ∈ updateFirstProg uI sI r dr T →
      p ∈ T ∨ (p.university_id = uI ∧ p.specialty_id = sI) := by
  intro T
  induction T with
  | nil => intro p hp; cases hp
  | cons q qs ih =>
    intro p hp
    simp only [updateFirstProg] at hp
    by_cases hq : (q.program_code == r.program_code) = true
    · rw [if_pos hq] at hp
      rcases List.mem_cons.mp hp with h | h
      · subst h
        cases dr <;> exact Or.inr ⟨rfl, rfl⟩
      · exact Or.inl (List.mem_cons_of_mem _ h)
    · rw [if_neg hq] at hp
      rcases List.mem_cons.mp hp with h | h
      · exact Or.inl (h ▸ List.mem_cons_self _ _)
      · rcases ih p h with h2 | h2
        · exact Or.inl (List.mem_cons_of_mem _ h2)
        · exact Or.inr h2

/-- One fact-loader step preserves referential integrity: every program row
after the step was already present or references served dimension ids. -/
theorem factStep_ref_integrity (uL sL : List (Str × Nat)) (descs : List DescRow)
    (UIds SIds : List Nat)
    (hU : ∀ k v, dictGet uL k = some v → v ∈ UIds)
    (hS : ∀ k v, dictGet sL k = some v → v ∈ SIds)
    (Q : Program → Prop) (st : FactState) (ir : Nat × ProgRow)
    (hst : ∀ p ∈ st.programs, Q p ∨ (p.university_id ∈ UIds ∧ p.specialty_id ∈ SIds)) :
    ∀ p ∈ (factStep uL sL descs st ir).programs,
      Q p ∨ (p.university_id ∈ UIds ∧ p.specialty_id ∈ SIds) := by
  intro p hp
  simp only [factStep] at hp
  split at hp
  · split at hp
    · exact hst p hp
    · rename_i hok
      rw [Bool.or_eq_true, not_or] at hok
      have hu := pyFalsy_false_eq (Bool.eq_false_iff.mpr hok.1)
      have hs := pyFalsy_false_eq (Bool.eq_false_iff.mpr hok.2)
      have humem := hU _ _ hu
      have hsmem := hS _ _ hs
      split at hp
      · rcases updateFirstProg_mem _ _ _ _ _ p hp with h | h
        · exact hst p h
        · exact Or.inr ⟨h.1 ▸ humem, h.2 ▸ hsmem⟩
      · rcases List.mem_append.mp hp with h | h
        · exact hst p h
        · rw [List.mem_singleton] at h
          subst h
          cases descs.get? ir.1 <;> exact Or.inr ⟨humem, hsmem⟩
  · exact hst p hp

/-- The whole fact load preserves referential integrity. -/
theorem factLoad_ref_integrity (unis : List University) (specs : List Specialty)
    (progs0 : List Program) (rows : List ProgRow) (descs : List DescRow) :
    ∀ p ∈ (factProgramsLoad unis specs progs0 rows descs).programs,
      p ∈ progs0 ∨
        (p.university_id ∈ unis.map (·.id) ∧ p.specialty_id ∈ specs.map (·.id)) := by
  unfold factProgramsLoad
  generalize rows.enum = l
  suffices H : ∀ (l : List (Nat × ProgRow)) (st : FactState),
      (∀ p ∈ st.programs, p ∈ progs0 ∨
        (p.university_id ∈ unis.map (·.id) ∧ p.specialty_id ∈ specs.map (·.id))) →
      ∀ p ∈ (l.foldl (factStep (uniLookup unis) (specLookup specs) descs) st).programs,
        p ∈ progs0 ∨
          (p.university_id ∈ unis.map (·.id) ∧ p.specialty_id ∈ specs.map (·.id)) by
    exact H l _ (fun p hp => Or.inl hp)
  intro l
  induction l with
  | nil => intro st hst; exact hst
  | cons ir l2 ih =>
    intro st hst
    rw [List.foldl_cons]
    exact ih _ (factStep_ref_integrity _ _ _ _ _
      (fun k v h => uniLookup_mem_ids unis k v h)
      (fun k v h => specLookup_mem_ids specs k v h) _ st ir hst)

/-- Claim C2: a fact candidate whose university or specialty name is absent
from the dimension lookup is skipped with the skipped counter incremented
by exactly one and nothing else changed; no fact row is ever written with a
dangling dimension reference; and in the concrete one-row case with an
absent university, the load yields zero fact rows and skipped = 1. -/
theorem claim_C2_fact_skip :
    (∀ (uL sL : List (Str × Nat)) (descs : List DescRow) (st : FactState)
        (idx : Nat) (r : ProgRow), r.is_valid = true →
        (dictGet uL r.university_name = none ∨ dictGet sL r.specialty_name = none) →
        factStep uL sL descs st (idx, r) = { st with skipped := st.skipped + 1 }) ∧
    (∀ (unis : List University) (specs : List Specialty) (progs0 : List Program)
        (rows : List ProgRow) (descs : List DescRow) (p : Program),
        p ∈ (factProgramsLoad unis specs progs0 rows descs).programs →
        p ∈ progs0 ∨
          (p.university_id ∈ unis.map (·.id) ∧ p.specialty_id ∈ specs.map (·.id))) ∧
    factProgramsLoad [mcgillUni] [fmSpecDim] [] [progMissingUni] [] =
      { programs := [], inserted := 0, updated := 0, skipped := 1 } := by
  refine ⟨?_, ?_, by decide⟩
  · intro uL sL descs st idx r hv habs
    have hfal : (pyFalsy (dictGet uL r.university_name) ||
        pyFalsy (dictGet sL r.specialty_name)) = true := by
      rcases habs with h | h <;> simp [h, pyFalsy]
    simp [factStep, hv, hfal]
  · intro unis specs progs0 rows descs p hp
    exact factLoad_ref_integrity unis specs progs0 rows descs p hp

/-- Witness for C2: the skip rule applied at the concrete missing-name
candidate. -/
theorem claim_C2_fact_skip_witness :
    factStep (uniLookup [mcgillUni]) (specLookup [fmSpecDim]) []
      { programs := [], inserted := 0, updated := 0, skipped := 0 }
      (0, progMissingUni) =
      { programs := [], inserted := 0, updated := 0, skipped := 1 } :=
  claim_C2_fact_skip.1 _ _ [] _ 0 progMissingUni (by decide) (Or.inl (by decide))

/-- Updating the first matching university changes no name, so name presence
is preserved. -/
theorem updateFirstUni_any (T : List University) (r : URow) (n : Str) :
    (updateFirstUni T r).any (fun u => u.name == n) =
      T.any (fun u => u.name == n) := by
  induction T with
  | nil => rfl
  | cons u us ih =>
    by_cases h : (u.name == r.university_name) = true <;>
      simp [updateFirstUni, h, ih]

/-- After an upsert the upserted name is present. -/
theorem upsertUniversity_any_self (T : List University) (r : URow) :
    (upsertUniversity T r).1.any (fun u => u.name == r.university_name) = true := by
  unfold upsertUniversity
  by_cases h : T.any (fun u => u.name == r.university_name) = true
  · rw [if_pos h]
    show (updateFirstUni T r).any (fun u => u.name == r.university_name) = true
    rw [updateFirstUni_any]
    exact h
  · rw [if_neg h]
    show (T ++ [_]).any (fun u => u.name == r.university_name) = true
    rw [List.any_append]
    simp

/-- An upsert never removes a name. -/
theorem upsertUniversity_any_mono (T : List University) (r : URow) (n : Str)
    (h : T.any (fun u => u.name == n) = true) :
    (upsertUniversity T r).1.any (fun u => u.name == n) = true := by
  unfold upsertUniversity
  by_cases h2 : T.any (fun u => u.name == r.university_name) = true
  · rw [if_pos h2]
    show (updateFirstUni T r).any (fun u => u.name == n) = true
    rw [updateFirstUni_any]
    exact h
  · rw [if_neg h2]
    show (T ++ [_]).any (fun u => u.name == n) = true
    rw [List.any_append, h]
    rfl

/-- A university load never removes a name. -/
theorem dimUniversitiesLoad_any_mono :
    ∀ (rows : List URow) (T : List University) (n : Str),
      T.any (fun u => u.name == n) = true →
      (dimUniversitiesLoad T rows).1.any (fun u => u.name == n) = true := by
  intro rows
  induction rows with
  | nil => intro T n h; exact h
  | cons r rs ih =>
    intro T n h
    exact ih _ n (upsertUniversity_any_mono T r n h)

/-- After a university load every staged name is present. -/
theorem dimUniversitiesLoad_any_of_mem :
    ∀ (rows : List URow) (T : List University) (r : URow), r ∈ rows →
      (dimUniversitiesLoad T rows).1.any
        (fun u => u.name == r.university_name) = true := by
  intro rows
  induction rows with
  | nil => intro T r h; cases h
  | cons r0 rs ih =>
    intro T r h
    rcases List.mem_cons.mp h with h2 | h2
    · subst h2
      exact dimUniversitiesLoad_any_mono rs _ _ (upsertUniversity_any_self T r)
    · exact ih _ r h2

/-- A university load over rows whose names are all already present only
updates, leaving the row count unchanged. -/
theorem dimUniversitiesLoad_length_of_present :
    ∀ (rows : List URow) (T : List University),
      (∀ r ∈ rows, T.any (fun u => u.name == r.university_name) = true) →
      (dimUniversitiesLoad T rows).1.length = T.length := by
  intro rows
  induction rows with
  | nil => intro T _; rfl
  | cons r rs ih =>
    intro T h
    have hr := h r (List.mem_cons_self r rs)
    have htail := ih (upsertUniversity T r).1
      (fun x hx => upsertUniversity_any_mono T r _ (h x (List.mem_cons_of_mem r hx)))
    calc (dimUniversitiesLoad T (r :: rs)).1.length
        = (dimUniversitiesLoad (upsertUniversity T r).1 rs).1.length := rfl
      _ = (upsertUniversity T r).1.length := htail
      _ = T.length := by simp [upsertUniversity, hr, updateFirstUni_length]

/-- Updating the first matching specialty preserves the table length. -/
theorem updateFirstSpec_length (T : List Specialty) (r : SRow) :
    (updateFirstSpec T r).length = T.length := by
  induction T with
  | nil => rfl
  | cons s ss ih =>
    by_cases h : (s.name == r.specialty_name) = true <;>
      simp [updateFirstSpec, h, ih]

/-- Updating the first matching specialty changes no name. -/
theorem updateFirstSpec_any (T : List Specialty) (r : SRow) (n : Str) :
    (updateFirstSpec T r).any (fun s => s.name == n) =
      T.any (fun s => s.name == n) := by
  induction T with
  | nil => rfl
  | cons s ss ih =>
    by_cases h : (s.name == r.specialty_name) = true <;>
      simp [updateFirstSpec, h, ih]

/-- Linking a parent preserves the table length. -/
theorem setParentFirst_length (T : List Specialty) (n : Str) (pid : Nat) :
    (setParentFirst T n pid).length = T.length := by
  induction T with
  | nil => rfl
  | cons s ss ih =>
    by_cases h : (s.name == n) = true <;> simp [setParentFirst, h, ih]

/-- Linking a parent changes no name. -/
theorem setParentFirst_any (T : List Specialty) (n n2 : Str) (pid : Nat) :
    (setParentFirst T n pid).any (fun s => s.name == n2) =
      T.any (fun s => s.name == n2) := by
  induction T with
  | nil => rfl
  | cons s ss ih =>
    by_cases h : (s.name == n) = true <;> simp [setParentFirst, h, ih]

/-- The first specialty pass never removes a name. -/
theorem specPass1_any_mono :
    ∀ (rows : List SRow) (T : List Specialty) (m : List (Str × Nat)) (n : Str),
      T.any (fun s => s.name == n) = true →
      (specPass1 T m rows).1.any (fun s => s.name == n) = true := by
  intro rows
  induction rows with
  | nil => intro T m n h; exact h
  | cons r rs ih =>
    intro T m n h
    simp only [specPass1]
    cases hf : T.find? (fun s => s.name == r.specialty_name) with
    | some ex => exact ih _ _ n (by rw [updateFirstSpec_any]; exact h)
    | none => exact ih _ _ n (by simp [h])

/-- After the first specialty pass every staged name is present. -/
theorem specPass1_any_of_mem :
    ∀ (rows : List SRow) (T : List Specialty) (m : List (Str × Nat)) (r : SRow),
      r ∈ rows →
      (specPass1 T m rows).1.any (fun s => s.name == r.specialty_name) = true := by
  intro rows
  induction rows with
  | nil => intro T m r h; cases h
  | cons r0 rs ih =>
    intro T m r h
    rcases List.mem_cons.mp h with h2 | h2
    · subst h2
      simp only [specPass1]
      cases hf : T.find? (fun s => s.name == r.specialty_name) with
      | some ex =>
        refine specPass1_any_mono rs _ _ _ ?_
        rw [updateFirstSpec_any]
        exact List.any_eq_true.mpr
          ⟨ex, List.mem_of_find?_eq_some hf, (List.find?_eq_some.mp hf).1⟩
      | none => exact specPass1_any_mono rs _ _ _ (by simp)
    · simp only [specPass1]
      cases hf : T.find? (fun s => s.name == r0.specialty_name) with
      | some ex => exact ih _ _ r h2
      | none => exact ih _ _ r h2

/-- A first specialty pass over rows whose names are all present only
updates, leaving the row count unchanged. -/
theorem specPass1_length_of_present :
    ∀ (rows : List SRow) (T : List Specialty) (m : List (Str × Nat)),
      (∀ r ∈ rows, T.any (fun s => s.name == r.specialty_name) = true) →
      (specPass1 T m rows).1.length = T.length := by
  intro rows
  induction rows with
  | nil => intro T m _; rfl
  | cons r rs ih =>
    intro T m h
    have hr := h r (List.mem_cons_self r rs)
    simp only [specPass1]
    cases hf : T.find? (fun s => s.name == r.specialty_name) with
    | some ex =>
      have htail := ih (updateFirstSpec T r) (dictSet m r.specialty_name ex.id)
        (fun x hx => by
          rw [updateFirstSpec_any]
          exact h x (List.mem_cons_of_mem r hx))
      rw [htail, updateFirstSpec_length]
    | none =>
      rcases List.any_eq_true.mp hr with ⟨x, hx, hpx⟩
      exact absurd hpx (by simpa using List.find?_eq_none.mp hf x hx)

/-- The parent-linking pass preserves the table length. -/
theorem specPass2_length (m : List (Str × Nat)) :
    ∀ (rows : List SRow) (T : List Specialty),
      (specPass2 m T rows).length = T.length := by
  intro rows
  induction rows with
  | nil => intro T; rfl
  | cons r rs ih =>
    intro T
    simp only [specPass2]
    split
    · split
      · split
        · exact ih T
        · split
          · rw [ih, setParentFirst_length]
          · exact ih T
      · exact ih T
    · exact ih T

/-- The parent-linking pass changes no name. -/
theorem specPass2_any (m : List (Str × Nat)) :
    ∀ (rows : List SRow) (T : List Specialty) (n : Str),
      (specPass2 m T rows).any (fun s => s.name == n) =
        T.any (fun s => s.name == n) := by
  intro rows
  induction rows with
  | nil => intro T n; rfl
  | cons r rs ih =>
    intro T n
    simp only [specPass2]
    split
    · split
      · split
        · exact ih T n
        · split
          · rw [ih, setParentFirst_any]
          · exact ih T n
      · exact ih T n
    · exact ih T n

/-- The specialty load over rows whose names are all present leaves the row
count unchanged. -/
theorem dimSpecialtiesLoad_length_of_present (rows : List SRow)
    (T : List Specialty)
    (h : ∀ r ∈ rows, T.any (fun s => s.name == r.specialty_name) = true) :
    (dimSpecialtiesLoad T rows).1.length = T.length := by
  show (specPass2 (specPass1 T [] rows).2.1 (specPass1 T [] rows).1 rows).length =
    T.length
  rw [specPass2_length, specPass1_length_of_present rows T [] h]

/-- After a specialty load every staged name is present. -/
theorem dimSpecialtiesLoad_any_of_mem (rows : List SRow) (T : List Specialty)
    (r : SRow) (hr : r ∈ rows) :
    (dimSpecialtiesLoad T rows).1.any (fun s => s.name == r.specialty_name) = true := by
  show (specPass2 (specPass1 T [] rows).2.1 (specPass1 T [] rows).1 rows).any
    (fun s => s.name == r.specialty_name) = true
  rw [specPass2_any]
  exact specPass1_any_of_mem rows T [] r hr

/-- The requirements loader only appends: it grows the table by exactly its
inserted count, and that count does not depend on the existing table. -/
theorem dimRequirementsLoad_growth (L : List (Str × Nat)) :
    ∀ (rows : List ReqRow) (T T2 : List Requirement),
      (dimRequirementsLoad L T rows).1.length =
        T.length + (dimRequirementsLoad L T rows).2 ∧
      (dimRequirementsLoad L T rows).2 = (dimRequirementsLoad L T2 rows).2 := by
  intro rows
  induction rows with
  | nil => intro T T2; exact ⟨rfl, rfl⟩
  | cons r rs ih =>
    intro T T2
    simp only [dimRequirementsLoad]
    cases hm : findProgramMatch L r.carms_id with
    | none => exact ih T T2
    | some pid =>
      dsimp only
      constructor
      · have h1 := (ih (T ++ [⟨pid, r.requirement_type, r.requirement_text, r.is_mandatory⟩]) T2).1
        rw [List.length_append] at h1
        simp only [List.length_cons, List.length_nil] at h1
        omega
      · have h2 := (ih (T ++ [⟨pid, r.requirement_type, r.requirement_text, r.is_mandatory⟩]) (T2 ++ [⟨pid, r.requirement_type, r.requirement_text, r.is_mandatory⟩])).2
        omega

/-- The criteria loader only appends: same growth law as requirements. -/
theorem dimSelectionCriteriaLoad_growth (L : List (Str × Nat)) :
    ∀ (rows : List CritRow) (T T2 : List SelectionCriteria),
      (dimSelectionCriteriaLoad L T rows).1.length =
        T.length + (dimSelectionCriteriaLoad L T rows).2 ∧
      (dimSelectionCriteriaLoad L T rows).2 =
        (dimSelectionCriteriaLoad L T2 rows).2 := by
  intro rows
  induction rows with
  | nil => intro T T2; exact ⟨rfl, rfl⟩
  | cons r rs ih =>
    intro T T2
    simp only [dimSelectionCriteriaLoad]
    cases hm : findProgramMatch L r.carms_id with
    | none => exact ih T T2
    | some pid =>
      dsimp only
      constructor
      · have h1 := (ih (T ++ [⟨pid, r.criterion_type, r.description⟩]) T2).1
        rw [List.length_append] at h1
        simp only [List.length_cons, List.length_nil] at h1
        omega
      · have h2 := (ih (T ++ [⟨pid, r.criterion_type, r.description⟩]) (T2 ++ [⟨pid, r.criterion_type, r.description⟩])).2
        omega

/-- The training-site loader only appends: same growth law as requirements. -/
theorem dimTrainingSitesLoad_growth (L : List (Str × Nat)) :
    ∀ (rows : List SiteRow) (T T2 : List TrainingSite),
      (dimTrainingSitesLoad L T rows).1.length =
        T.length + (dimTrainingSitesLoad L T rows).2 ∧
      (dimTrainingSitesLoad L T rows).2 = (dimTrainingSitesLoad L T2 rows).2 := by
  intro rows
  induction rows with
  | nil => intro T T2; exact ⟨rfl, rfl⟩
  | cons r rs ih =>
    intro T T2
    simp only [dimTrainingSitesLoad]
    cases hm : findProgramMatch L r.carms_id with
    | none => exact ih T T2
    | some pid =>
      dsimp only
      constructor
      · have h1 := (ih (T ++ [⟨pid, r.site_name, r.site_type⟩]) T2).1
        rw [List.length_append] at h1
        simp only [List.length_cons, List.length_nil] at h1
        omega
      · have h2 := (ih (T ++ [⟨pid, r.site_name, r.site_type⟩]) (T2 ++ [⟨pid, r.site_name, r.site_type⟩])).2
        omega

/-- Updating the first matching program preserves the table length. -/
theorem updateFirstProg_length (uI sI : Nat) (r : ProgRow) (dr : Option DescRow) :
    ∀ T : List Program, (updateFirstProg uI sI r dr T).length = T.length := by
  intro T
  induction T with
  | nil => rfl
  | cons q qs ih =>
    simp only [updateFirstProg]
    by_cases hq : (q.program_code == r.program_code) = true
    · rw [if_pos hq]
      simp [List.length_cons]
    · rw [if_neg hq]
      simp [List.length_cons, ih]

/-- Updating the first matching program changes no program code, so code
presence is preserved. -/
theorem updateFirstProg_any_code (uI sI : Nat) (r : ProgRow) (dr : Option DescRow)
    (c : Str) :
    ∀ T : List Program,
      (updateFirstProg uI sI r dr T).any (fun p => p.program_code == c) =
        T.any (fun p => p.program_code == c) := by
  intro T
  induction T with
  | nil => rfl
  | cons q qs ih =>
    simp only [updateFirstProg]
    by_cases hq : (q.program_code == r.program_code) = true
    · rw [if_pos hq]
      cases dr <;> simp [List.any_cons]
    · rw [if_neg hq]
      simp [List.any_cons, ih]

/-- One fact-loader step never removes a program code. -/
theorem factStep_any_code_mono (uL sL : List (Str × Nat)) (descs : List DescRow)
    (st : FactState) (ir : Nat × ProgRow) (c : Str)
    (h : st.programs.any (fun p => p.program_code == c) = true) :
    (factStep uL sL descs st ir).programs.any (fun p => p.program_code == c) = true := by
  dsimp only [factStep]
  split
  · split
    · exact h
    · split
      · show (updateFirstProg _ _ _ _ st.programs).any (fun p => p.program_code == c) = true
        rw [updateFirstProg_any_code]
        exact h
      · show (st.programs ++ [_]).any (fun p => p.program_code == c) = true
        simp [List.any_append, h]
  · exact h

/-- After processing a valid, resolvable candidate its program code is
present in the fact table. -/
theorem factStep_code_self (uL sL : List (Str × Nat)) (descs : List DescRow)
    (st : FactState) (idx : Nat) (r : ProgRow)
    (hv : r.is_valid = true)
    (hok : (pyFalsy (dictGet uL r.university_name) ||
        pyFalsy (dictGet sL r.specialty_name)) = false) :
    (factStep uL sL descs st (idx, r)).programs.any
      (fun p => p.program_code == r.program_code) = true := by
  dsimp only [factStep]
  rw [hv, hok]
  rw [if_pos rfl, if_neg (by simp)]
  split
  case isTrue hany =>
    show (updateFirstProg _ _ _ _ st.programs).any
      (fun p => p.program_code == r.program_code) = true
    rw [updateFirstProg_any_code]
    exact hany
  case isFalse hany =>
    cases hd : descs.get? idx <;> simp [List.any_append]

/-- A whole fact load never removes a program code. -/
theorem factFold_any_code_mono (uL sL : List (Str × Nat)) (descs : List DescRow) :
    ∀ (l : List (Nat × ProgRow)) (st : FactState) (c : Str),
      st.programs.any (fun p => p.program_code == c) = true →
      (l.foldl (factStep uL sL descs) st).programs.any
        (fun p => p.program_code == c) = true := by
  intro l
  induction l with
  | nil => intro st c h; exact h
  | cons ir l2 ih =>
    intro st c h
    rw [List.foldl_cons]
    exact ih _ c (factStep_any_code_mono uL sL descs st ir c h)

/-- After a fact load the code of every valid, resolvable staged row is
present in the fact table. -/
theorem factFold_code_of_mem (uL sL : List (Str × Nat)) (descs : List DescRow) :
    ∀ (l : List (Nat × ProgRow)) (st : FactState) (ir : Nat × ProgRow), ir ∈ l →
      ir.2.is_valid = true →
      (pyFalsy (dictGet uL ir.2.university_name) ||
        pyFalsy (dictGet sL ir.2.specialty_name)) = false →
      (l.foldl (factStep uL sL descs) st).programs.any
        (fun p => p.program_code == ir.2.program_code) = true := by
  intro l
  induction l with
  | nil => intro st ir h; cases h
  | cons ir0 l2 ih =>
    intro st ir h hv hok
    rcases List.mem_cons.mp h with h2 | h2
    · subst h2
      rw [List.foldl_cons]
      exact factFold_any_code_mono uL sL descs l2 _ _
        (factStep_code_self uL sL descs st ir.1 ir.2 hv hok)
    · rw [List.foldl_cons]
      exact ih _ ir h2 hv hok

/-- A fact-loader step whose row, when valid and resolvable, already has its
code in the table takes the update or skip path: the row count is
unchanged. -/
theorem factStep_length_of_present (uL sL : List (Str × Nat)) (descs : List DescRow)
    (st : FactState) (ir : Nat × ProgRow)
    (h : ir.2.is_valid = true →
      (pyFalsy (dictGet uL ir.2.university_name) ||
        pyFalsy (dictGet sL ir.2.specialty_name)) = false →
      st.programs.any (fun p => p.program_code == ir.2.program_code) = true) :
    (factStep uL sL descs st ir).programs.length = st.programs.length := by
  dsimp only [factStep]
  split
  case isTrue hv =>
    split
    case isTrue hskip => rfl
    case isFalse hok =>
      have hany := h hv (Bool.eq_false_iff.mpr hok)
      rw [if_pos hany]
      show (updateFirstProg _ _ _ _ st.programs).length = st.programs.length
      exact updateFirstProg_length _ _ _ _ st.programs
  case isFalse => rfl

/-- A fact load over rows whose valid, resolvable codes are all already
present only updates or skips, leaving the row count unchanged. -/
theorem factFold_length_of_present (uL sL : List (Str × Nat)) (descs : List DescRow) :
    ∀ (l : List (Nat × ProgRow)) (st : FactState),
      (∀ ir ∈ l, ir.2.is_valid = true →
        (pyFalsy (dictGet uL ir.2.university_name) ||
          pyFalsy (dictGet sL ir.2.specialty_name)) = false →
        st.programs.any (fun p => p.program_code == ir.2.program_code) = true) →
      (l.foldl (factStep uL sL descs) st).programs.length = st.programs.length := by
  intro l
  induction l with
  | nil => intro st _; rfl
  | cons ir l2 ih =>
    intro st h
    rw [List.foldl_cons]
    rw [ih _ (fun ir2 h2 hv2 hok2 =>
      factStep_any_code_mono uL sL descs st ir _
        (h ir2 (List.mem_cons_of_mem ir h2) hv2 hok2))]
    exact factStep_length_of_present uL sL descs st ir
      (fun hv hok => h ir (List.mem_cons_self ir l2) hv hok)

/-- A second fact load against the same dimension tables and unchanged
staged input preserves the fact-table row count. -/
theorem factLoad_second_run_length (unis : List University) (specs : List Specialty)
    (progs0 : List Program) (rows : List ProgRow) (descs : List DescRow) :
    (factProgramsLoad unis specs
        (factProgramsLoad unis specs progs0 rows descs).programs
        rows descs).programs.length =
      (factProgramsLoad unis specs progs0 rows descs).programs.length := by
  unfold factProgramsLoad
  generalize rows.enum = l
  exact factFold_length_of_present _ _ _ l _
    (fun ir hmem hv hok =>
      factFold_code_of_mem (uniLookup unis) (specLookup specs) descs l _ ir hmem hv hok)

/-- Updating the first matching university changes neither name nor id. -/
theorem updateFirstUni_proj (T : List University) (r : URow) :
    (updateFirstUni T r).map (fun u => (u.name, u.id)) =
      T.map (fun u => (u.name, u.id)) := by
  induction T with
  | nil => rfl
  | cons u us ih =>
    by_cases h : (u.name == r.university_name) = true <;>
      simp [updateFirstUni, h, ih]

/-- A university load over already-present names changes no (name, id)
pair. -/
theorem dimUniversitiesLoad_proj_of_present :
    ∀ (rows : List URow) (T : List University),
      (∀ r ∈ rows, T.any (fun u => u.name == r.university_name) = true) →
      (dimUniversitiesLoad T rows).1.map (fun u => (u.name, u.id)) =
        T.map (fun u => (u.name, u.id)) := by
  intro rows
  induction rows with
  | nil => intro T _; rfl
  | cons r rs ih =>
    intro T h
    have hr := h r (List.mem_cons_self r rs)
    have htail := ih (upsertUniversity T r).1
      (fun x hx => upsertUniversity_any_mono T r _ (h x (List.mem_cons_of_mem r hx)))
    calc (dimUniversitiesLoad T (r :: rs)).1.map (fun u => (u.name, u.id))
        = (dimUniversitiesLoad (upsertUniversity T r).1 rs).1.map
            (fun u => (u.name, u.id)) := rfl
      _ = (upsertUniversity T r).1.map (fun u => (u.name, u.id)) := htail
      _ = T.map (fun u => (u.name, u.id)) := by
          rw [show (upsertUniversity T r).1 = updateFirstUni T r by
            simp [upsertUniversity, hr]]
          exact updateFirstUni_proj T r

/-- The university lookup depends only on the (name, id) projection of the
table. -/
theorem uniLookup_eq_foldl_proj (T : List University) :
    uniLookup T =
      (T.map (fun u => (u.name, u.id))).foldl (fun d p => dictSet d p.1 p.2) [] := by
  rw [List.foldl_map]
  rfl

/-- A second university load on unchanged staged rows serves the same
name-to-id lookup. -/
theorem uniLookup_second_run (T : List University) (rows : List URow) :
    uniLookup (dimUniversitiesLoad (dimUniversitiesLoad T rows).1 rows).1 =
      uniLookup (dimUniversitiesLoad T rows).1 := by
  rw [uniLookup_eq_foldl_proj, uniLookup_eq_foldl_proj,
    dimUniversitiesLoad_proj_of_present rows _
      (fun r hr => dimUniversitiesLoad_any_of_mem rows T r hr)]

/-- Updating the first matching specialty changes neither name nor id. -/
theorem updateFirstSpec_proj (T : List Specialty) (r : SRow) :
    (updateFirstSpec T r).map (fun s => (s.name, s.id)) =
      T.map (fun s => (s.name, s.id)) := by
  induction T with
  | nil => rfl
  | cons s ss ih =>
    by_cases h : (s.name == r.specialty_name) = true <;>
      simp [updateFirstSpec, h, ih]

/-- Linking a parent changes neither name nor id. -/
theorem setParentFirst_proj (T : List Specialty) (n : Str) (pid : Nat) :
    (setParentFirst T n pid).map (fun s => (s.name, s.id)) =
      T.map (fun s => (s.name, s.id)) := by
  induction T with
  | nil => rfl
  | cons s ss ih =>
    by_cases h : (s.name == n) = true <;> simp [setParentFirst, h, ih]

/-- The parent-linking pass changes no (name, id) pair. -/
theorem specPass2_proj (m : List (Str × Nat)) :
    ∀ (rows : List SRow) (T : List Specialty),
      (specPass2 m T rows).map (fun s => (s.name, s.id)) =
        T.map (fun s => (s.name, s.id)) := by
  intro rows
  induction rows with
  | nil => intro T; rfl
  | cons r rs ih =>
    intro T
    simp only [specPass2]
    split
    · split
      · split
        · exact ih T
        · split
          · rw [ih, setParentFirst_proj]
          · exact ih T
      · exact ih T
    · exact ih T

/-- A first specialty pass over already-present names changes no (name, id)
pair. -/
theorem specPass1_proj_of_present :
    ∀ (rows : List SRow) (T : List Specialty) (m : List (Str × Nat)),
      (∀ r ∈ rows, T.any (fun s => s.name == r.specialty_name) = true) →
      (specPass1 T m rows).1.map (fun s => (s.name, s.id)) =
        T.map (fun s => (s.name, s.id)) := by
  intro rows
  induction rows with
  | nil => intro T m _; rfl
  | cons r rs ih =>
    intro T m h
    have hr := h r (List.mem_cons_self r rs)
    simp only [specPass1]
    cases hf : T.find? (fun s => s.name == r.specialty_name) with
    | some ex =>
      have htail := ih (updateFirstSpec T r) (dictSet m r.specialty_name ex.id)
        (fun x hx => by
          rw [updateFirstSpec_any]
          exact h x (List.mem_cons_of_mem r hx))
      rw [htail, updateFirstSpec_proj]
    | none =>
      rcases List.any_eq_true.mp hr with ⟨x, hx, hpx⟩
      exact absurd hpx (by simpa using List.find?_eq_none.mp hf x hx)

/-- A specialty load over already-present names changes no (name, id)
pair. -/
theorem dimSpecialtiesLoad_proj_of_present (rows : List SRow) (T : List Specialty)
    (h : ∀ r ∈ rows, T.any (fun s => s.name == r.specialty_name) = true) :
    (dimSpecialtiesLoad T rows).1.map (fun s => (s.name, s.id)) =
      T.map (fun s => (s.name, s.id)) := by
  show (specPass2 (specPass1 T [] rows).2.1 (specPass1 T [] rows).1 rows).map
      (fun s => (s.name, s.id)) = T.map (fun s => (s.name, s.id))
  rw [specPass2_proj, specPass1_proj_of_present rows T [] h]

/-- The specialty lookup depends only on the (name, id) projection of the
table. -/
theorem specLookup_eq_foldl_proj (T : List Specialty) :
    specLookup T =
      (T.map (fun s => (s.name, s.id))).foldl (fun d p => dictSet d p.1 p.2) [] := by
  rw [List.foldl_map]
  rfl

/-- A second specialty load on unchanged staged rows serves the same
name-to-id lookup. -/
theorem specLookup_second_run (T : List Specialty) (rows : List SRow) :
    specLookup (dimSpecialtiesLoad (dimSpecialtiesLoad T rows).1 rows).1 =
      specLookup (dimSpecialtiesLoad T rows).1 := by
  rw [specLookup_eq_foldl_proj, specLookup_eq_foldl_proj,
    dimSpecialtiesLoad_proj_of_present rows _
      (fun r hr => dimSpecialtiesLoad_any_of_mem rows T r hr)]

/-- A second serving run on unchanged staged input preserves the row counts
of the universities, specialties and programs tables: the dimension loads
only update, and the fact load — whose dimension lookups are unchanged,
since the second dimension run preserves every (name, id) pair — only
updates or re-skips. -/
theorem servingRun_second_run_lengths (db : DB) (s : StagingData) :
    (servingRun (servingRun db s).db s).db.universities.length =
      (servingRun db s).db.universities.length ∧
    (servingRun (servingRun db s).db s).db.specialties.length =
      (servingRun db s).db.specialties.length ∧
    (servingRun (servingRun db s).db s).db.programs.length =
      (servingRun db s).db.programs.length := by
  refine ⟨?_, ?_, ?_⟩
  · show (dimUniversitiesLoad (dimUniversitiesLoad db.universities s.universities).1
        s.universities).1.length =
      (dimUniversitiesLoad db.universities s.universities).1.length
    exact dimUniversitiesLoad_length_of_present s.universities _
      (fun r hr => dimUniversitiesLoad_any_of_mem s.universities db.universities r hr)
  · show (dimSpecialtiesLoad (dimSpecialtiesLoad db.specialties s.specialties).1
        s.specialties).1.length =
      (dimSpecialtiesLoad db.specialties s.specialties).1.length
    exact dimSpecialtiesLoad_length_of_present s.specialties _
      (fun r hr => dimSpecialtiesLoad_any_of_mem s.specialties db.specialties r hr)
  · show (factProgramsLoad
        (dimUniversitiesLoad (dimUniversitiesLoad db.universities s.universities).1
          s.universities).1
        (dimSpecialtiesLoad (dimSpecialtiesLoad db.specialties s.specialties).1
          s.specialties).1
        (factProgramsLoad (dimUniversitiesLoad db.universities s.universities).1
          (dimSpecialtiesLoad db.specialties s.specialties).1
          db.programs s.programs s.descriptions).programs
        s.programs s.descriptions).programs.length =
      (factProgramsLoad (dimUniversitiesLoad db.universities s.universities).1
        (dimSpecialtiesLoad db.specialties s.specialties).1
        db.programs s.programs s.descriptions).programs.length
    have hcongr : factProgramsLoad
        (dimUniversitiesLoad (dimUniversitiesLoad db.universities s.universities).1
          s.universities).1
        (dimSpecialtiesLoad (dimSpecialtiesLoad db.specialties s.specialties).1
          s.specialties).1
        (factProgramsLoad (dimUniversitiesLoad db.universities s.universities).1
          (dimSpecialtiesLoad db.specialties s.specialties).1
          db.programs s.programs s.descriptions).programs
        s.programs s.descriptions =
      factProgramsLoad (dimUniversitiesLoad db.universities s.universities).1
        (dimSpecialtiesLoad db.specialties s.specialties).1
        (factProgramsLoad (dimUniversitiesLoad db.universities s.universities).1
          (dimSpecialtiesLoad db.specialties s.specialties).1
          db.programs s.programs s.descriptions).programs
        s.programs s.descriptions := by
      unfold factProgramsLoad
      rw [uniLookup_second_run, specLookup_second_run]
    rw [hcongr]
    exact factLoad_second_run_length _ _ db.programs s.programs s.descriptions

/-- Counterexample to claim C1: in the single-program scenario a second
serving run on unchanged staged input grows the requirements table from one
row to two — the run is not idempotent for the child-record tables. -/
theorem claim_C1_counterexample :
    (servingRun emptyDB stgC1).db.requirements.length = 1 ∧
    (servingRun (servingRun emptyDB stgC1).db stgC1).db.requirements.length = 2 ∧
    (servingRun (servingRun emptyDB stgC1).db stgC1).db.requirements.length ≠
      (servingRun emptyDB stgC1).db.requirements.length := by
  exact ⟨by decide, by decide, by decide⟩

/-- Claim C1 as amended: for every warehouse state and staged input, a
second serving run on unchanged input preserves the row counts of the
dimension tables (universities, specialties) and of the programs fact
table, while each child-record loader is insert-only: it grows its table by
exactly its inserted count, a count independent of what is already stored,
so every further run appends the matched child rows again (in the concrete
single-program scenario the requirements table grows from 1 to 2 and the
second run even leaves the fact rows identical). -/
theorem claim_C1_amended :
    (∀ (db : DB) (s : StagingData),
        (servingRun (servingRun db s).db s).db.universities.length =
          (servingRun db s).db.universities.length ∧
        (servingRun (servingRun db s).db s).db.specialties.length =
          (servingRun db s).db.specialties.length ∧
        (servingRun (servingRun db s).db s).db.programs.length =
          (servingRun db s).db.programs.length) ∧
    (∀ (T : List University) (rows : List URow),
        (dimUniversitiesLoad (dimUniversitiesLoad T rows).1 rows).1.length =
          (dimUniversitiesLoad T rows).1.length) ∧
    (∀ (T : List Specialty) (rows : List SRow),
        (dimSpecialtiesLoad (dimSpecialtiesLoad T rows).1 rows).1.length =
          (dimSpecialtiesLoad T rows).1.length) ∧
    (∀ (L : List (Str × Nat)) (T T2 : List Requirement) (rows : List ReqRow),
        (dimRequirementsLoad L T rows).1.length =
          T.length + (dimRequirementsLoad L T rows).2 ∧
        (dimRequirementsLoad L T rows).2 = (dimRequirementsLoad L T2 rows).2) ∧
    (∀ (L : List (Str × Nat)) (T T2 : List SelectionCriteria) (rows : List CritRow),
        (dimSelectionCriteriaLoad L T rows).1.length =
          T.length + (dimSelectionCriteriaLoad L T rows).2 ∧
        (dimSelectionCriteriaLoad L T rows).2 =
          (dimSelectionCriteriaLoad L T2 rows).2) ∧
    (∀ (L : List (Str × Nat)) (T T2 : List TrainingSite) (rows : List SiteRow),
        (dimTrainingSitesLoad L T rows).1.length =
          T.length + (dimTrainingSitesLoad L T rows).2 ∧
        (dimTrainingSitesLoad L T rows).2 = (dimTrainingSitesLoad L T2 rows).2) ∧
    ((servingRun emptyDB stgC1).db.universities.length = 1 ∧
     (servingRun (servingRun emptyDB stgC1).db stgC1).db.universities.length = 1 ∧
     (servingRun emptyDB stgC1).db.specialties.length = 1 ∧
     (servingRun (servingRun emptyDB stgC1).db stgC1).db.specialties.length = 1 ∧
     (servingRun emptyDB stgC1).db.programs.length = 1 ∧
     (servingRun (servingRun emptyDB stgC1).db stgC1).db.programs =
       (servingRun emptyDB stgC1).db.programs ∧
     (servingRun emptyDB stgC1).reqInserted = 1 ∧
     (servingRun (servingRun emptyDB stgC1).db stgC1).reqInserted = 1 ∧
     (servingRun emptyDB stgC1).db.requirements.length = 1 ∧
     (servingRun (servingRun emptyDB stgC1).db stgC1).db.requirements.length = 2) := by
  refine ⟨?_, ?_, ?_, ?_, ?_, ?_,
    by decide, by decide, by decide, by decide, by decide,
    by decide, by decide, by decide, by decide, by decide⟩
  · intro db s
    exact servingRun_second_run_lengths db s
  · intro T rows
    exact dimUniversitiesLoad_length_of_present rows _
      (fun r hr => dimUniversitiesLoad_any_of_mem rows T r hr)
  · intro T rows
    exact dimSpecialtiesLoad_length_of_present rows _
      (fun r hr => dimSpecialtiesLoad_any_of_mem rows T r hr)
  · intro L T T2 rows
    exact dimRequirementsLoad_growth L rows T T2
  · intro L T T2 rows
    exact dimSelectionCriteriaLoad_growth L rows T T2
  · intro L T T2 rows
    exact dimTrainingSitesLoad_growth L rows T T2
